import Mathlib

/-!
# Verification of the ExecPlan document-management engine

This file gives a shallow embedding, in Lean 4, of the core of the
ExecPlan subsystem (path classification, slug and identity allocation,
document creation, two-phase archival with rollback, milestone
allocation, and the registry write policy), translated from
`src/agentrules/core/execplan/{paths,creator,milestones,registry}.py`
and `src/agentrules/core/utils/execplan_identity.py`, together with
theorems settling the specification claims about that code.

Modelling conventions:

* Filesystem paths are lists of path components (`PathParts`), taken
  relative to the execplans root; `Path.resolve` and absolute-path
  handling are outside the embedding.
* The filesystem is a finite map from paths to documents plus a set of
  directories.  Python `os.replace` is atomic, so a move is a single
  state transition; a failed write or move leaves the file map
  unchanged (the source writes through a temp file + `os.replace`).
* YAML front matter is modelled at the parsed level: a document is
  either `raw` (unreadable, not valid UTF-8, bad YAML, or without a
  usable front-matter mapping) or `fm` with an ordered string-keyed,
  string-valued field list.  The YAML library itself is external; the
  operations under claim only look keys up, compare field values and
  update `status`/`updated` in place, for which this level suffices.
* Characters are handled at ASCII level.  Python `str.lower` and the
  `\s` class also cover non-ASCII code points, but every non-ASCII
  character is outside `[a-z0-9_-]` and is therefore replaced by a
  hyphen by the slug pipeline either way, so the observable slugs
  agree on ASCII input and the divergence is immaterial to the claims.
-/

/-! ## Character classes and Python-style string primitives -/

/-- The Python `\s` class, at ASCII level (code points 32, 9, 10, 13,
11, 12: space, tab, newline, carriage return, vertical tab, form
feed). -/
def isPyWs (c : Char) : Bool :=
  c.toNat == 32 || c.toNat == 9 || c.toNat == 10 || c.toNat == 13 ||
    c.toNat == 11 || c.toNat == 12

/-- Membership in the slug alphabet `[a-z0-9_-]` of `_slugify`
(code points 97-122 = a-z, 48-57 = 0-9, 95 = underscore,
45 = hyphen). -/
def isSlugChar (c : Char) : Bool :=
  (97 ≤ c.toNat && c.toNat ≤ 122) || (48 ≤ c.toNat && c.toNat ≤ 57) ||
    c.toNat == 95 || c.toNat == 45

/-- A hyphen or underscore, the class stripped by `.strip("-_")`. -/
def isHyphenUnderscore (c : Char) : Bool :=
  c.toNat == 45 || c.toNat == 95

/-- A hyphen, the class collapsed by `re.sub` over two-or-more
hyphens. -/
def isHyphen (c : Char) : Bool :=
  c.toNat == 45

/-- Drop a maximal leading run of characters satisfying `p`
(`str.lstrip`). -/
def dropRun (p : Char → Bool) : List Char → List Char
  | [] => []
  | c :: rest => if p c then dropRun p rest else c :: rest

/-- Strip characters satisfying `p` from both ends (`str.strip`). -/
def stripEnds (p : Char → Bool) (l : List Char) : List Char :=
  ((dropRun p l).reverse |> dropRun p).reverse

/-- Replace every maximal run of characters satisfying `p` by the
single character `rep`, as `re.sub(r"X+", rep, s)` does for a
character class `X`.  The `inRun` flag records whether the previous
character was part of a run already replaced. -/
def collapseRunsGo (p : Char → Bool) (rep : Char) : Bool → List Char → List Char
  | _, [] => []
  | inRun, c :: rest =>
    if p c then
      if inRun then collapseRunsGo p rep true rest
      else rep :: collapseRunsGo p rep true rest
    else c :: collapseRunsGo p rep false rest

/-- `re.sub` over a one-character-class pattern with `{1,}`/`{2,}`
multiplicity: every maximal nonempty run of `p`-characters becomes a
single `rep` (a lone `rep`-satisfying character maps to itself when
`rep` satisfies `p`, so this also models `re.sub(r"-{2,}", "-", ...)`). -/
def collapseRuns (p : Char → Bool) (rep : Char) (l : List Char) : List Char :=
  collapseRunsGo p rep false l

/-- `_slugify` from `creator.py` lines 70-77 (textually identical in
`milestones.py` lines 341-348): strip and lower-case, return `""` when
empty, collapse whitespace runs to `-`, replace runs outside
`[a-z0-9_-]` by `-`, collapse `-` runs, strip `-`/`_` from the ends. -/
def slugifyChars (l : List Char) : List Char :=
  let lowered := (stripEnds isPyWs l).map Char.toLower
  if lowered.isEmpty then []
  else
    let collapsed := collapseRuns isPyWs '-' lowered
    let cleaned := collapseRuns (fun c => !(isSlugChar c)) '-' collapsed
    let deduped := collapseRuns isHyphen '-' cleaned
    stripEnds isHyphenUnderscore deduped

/-- `_slugify` on strings. -/
def slugify (s : String) : String :=
  String.mk (slugifyChars s.data)

example : slugify "Auth Refresh" = "auth-refresh" := by decide
example : slugify "  A  b " = "a-b" := by decide
example : slugify "a.b" = "a-b" := by decide
example : slugify "_" = "" := by decide
example : slugify "" = "" := by decide

/-! ## Specification-side slug pipelines

`claimSlugChars` reads the claim about `_slugify` literally: characters
outside `[a-z0-9_-]` are removed.  `specSlugChars` is the corrected
reading: runs of such characters are replaced by a hyphen; it is
implemented with an independent right-fold run replacement so that its
agreement with the translated code is a theorem, not a definition. -/

/-- Does the list start with a character satisfying `p`? -/
def headSat (p : Char → Bool) : List Char → Bool
  | [] => false
  | c :: _ => p c

def replaceRunsStep (p : Char → Bool) (rep : Char) (c : Char)
    (acc : Bool × List Char) : Bool × List Char :=
  if p c then (true, if acc.1 then acc.2 else rep :: acc.2)
  else (false, c :: acc.2)

/-- Replace every maximal run of `p`-characters by one `rep`,
implemented as a right fold (the Boolean records whether the character
to the right opened a run). -/
def replaceRuns (p : Char → Bool) (rep : Char) (l : List Char) : List Char :=
  (l.foldr (replaceRunsStep p rep) (false, [])).2

/-- The slug the original claim describes: invalid characters are
removed (`List.filter`) instead of being replaced by a hyphen. -/
def claimSlugChars (l : List Char) : List Char :=
  stripEnds isHyphenUnderscore
    (replaceRuns isHyphen '-'
      ((replaceRuns isPyWs '-' ((stripEnds isPyWs l).map Char.toLower)).filter
        isSlugChar))

def claimSlug (s : String) : String :=
  String.mk (claimSlugChars s.data)

/-- The slug the amended claim describes: after the whitespace trim
and lower-casing, runs of characters outside the slug alphabet are
replaced by a hyphen, repeated hyphens are collapsed, and leading and
trailing hyphens and underscores are stripped (`strip("-_")`). -/
def specSlugChars (l : List Char) : List Char :=
  stripEnds isHyphenUnderscore
    (replaceRuns isHyphen '-'
      (replaceRuns (fun c => !(isSlugChar c)) '-'
        (replaceRuns isPyWs '-' ((stripEnds isPyWs l).map Char.toLower))))

def specSlug (s : String) : String :=
  String.mk (specSlugChars s.data)

/-! ## Equivalence of the two run-replacement implementations -/

theorem replaceRuns_fst (p : Char → Bool) (rep : Char) (l : List Char) :
    (l.foldr (replaceRunsStep p rep) (false, [])).1 = headSat p l := by
  cases l with
  | nil => rfl
  | cons c rest =>
    simp only [List.foldr_cons, replaceRunsStep, headSat]
    by_cases h : p c = true <;> simp [h]

theorem replaceRuns_cons (p : Char → Bool) (rep : Char) (c : Char)
    (rest : List Char) :
    replaceRuns p rep (c :: rest) =
      if p c then
        (if headSat p rest then replaceRuns p rep rest
         else rep :: replaceRuns p rep rest)
      else c :: replaceRuns p rep rest := by
  cases hp : p c <;> cases hr : headSat p rest <;>
    simp [replaceRuns, replaceRunsStep, List.foldr_cons, replaceRuns_fst,
      hp, hr]

theorem collapseRunsGo_eq_replaceRuns (p : Char → Bool) (rep : Char) :
    ∀ l : List Char,
      collapseRunsGo p rep false l = replaceRuns p rep l ∧
      (headSat p l = true →
        replaceRuns p rep l = rep :: collapseRunsGo p rep true l) ∧
      (headSat p l = false →
        collapseRunsGo p rep true l = collapseRunsGo p rep false l) := by
  intro l
  induction l with
  | nil =>
    refine ⟨rfl, ?_, fun _ => rfl⟩
    intro h
    simp [headSat] at h
  | cons c rest ih =>
    obtain ⟨ihA, ihB, ihC⟩ := ih
    refine ⟨?_, ?_, ?_⟩
    · rw [replaceRuns_cons]
      cases hp : p c
      · simp only [if_false, Bool.false_eq_true, collapseRunsGo, hp, ihA]
      · simp only [if_true, collapseRunsGo, hp]
        cases hr : headSat p rest
        · simp [ihC hr, ihA]
        · simp [ihB hr]
    · intro hc
      have hp : p c = true := hc
      rw [replaceRuns_cons]
      simp only [hp, if_true, collapseRunsGo]
      cases hr : headSat p rest
      · simp [ihC hr, ihA]
      · simp [ihB hr]
    · intro hc
      have hp : p c = false := hc
      simp only [collapseRunsGo, hp, Bool.false_eq_true, if_false]

theorem collapseRuns_eq_replaceRuns (p : Char → Bool) (rep : Char)
    (l : List Char) : collapseRuns p rep l = replaceRuns p rep l :=
  (collapseRunsGo_eq_replaceRuns p rep l).1

/-! ## Structural lemmas about the slug pipeline stages -/

theorem headSat_eq_false_iff (p : Char → Bool) (l : List Char) :
    headSat p l = false ↔ ∀ c ∈ l.head?, p c = false := by
  cases l <;> simp [headSat]

theorem mem_collapseRunsGo (p : Char → Bool) (rep : Char) :
    ∀ (b : Bool) (l : List Char) (c : Char),
      c ∈ collapseRunsGo p rep b l → c = rep ∨ (c ∈ l ∧ p c = false) := by
  intro b l
  induction l generalizing b with
  | nil => intro c h; simp [collapseRunsGo] at h
  | cons d rest ih =>
    intro c h
    by_cases hp : p d = true
    · simp only [collapseRunsGo, hp, if_true] at h
      cases b with
      | true =>
        rcases ih true c h with h1 | h2
        · exact Or.inl h1
        · exact Or.inr ⟨List.mem_cons_of_mem d h2.1, h2.2⟩
      | false =>
        rcases List.mem_cons.1 h with h1 | h1
        · exact Or.inl h1
        · rcases ih true c h1 with h2 | h3
          · exact Or.inl h2
          · exact Or.inr ⟨List.mem_cons_of_mem d h3.1, h3.2⟩
    · have hp2 : p d = false := eq_false_of_ne_true hp
      simp only [collapseRunsGo, hp2, Bool.false_eq_true, if_false] at h
      rcases List.mem_cons.1 h with h1 | h1
      · exact Or.inr ⟨h1 ▸ List.mem_cons_self d rest, h1 ▸ hp2⟩
      · rcases ih false c h1 with h2 | h3
        · exact Or.inl h2
        · exact Or.inr ⟨List.mem_cons_of_mem d h3.1, h3.2⟩

theorem collapseRunsGo_eq_self (p : Char → Bool) (rep : Char) :
    ∀ (b : Bool) (l : List Char), (∀ c ∈ l, p c = false) →
      collapseRunsGo p rep b l = l := by
  intro b l
  induction l generalizing b with
  | nil => intro _; rfl
  | cons d rest ih =>
    intro h
    have hd : p d = false := h d (List.mem_cons_self d rest)
    simp only [collapseRunsGo, hd, Bool.false_eq_true, if_false]
    exact congrArg (d :: ·) (ih false fun c hc => h c (List.mem_cons_of_mem d hc))

theorem headSat_collapseRunsGo_true (p : Char → Bool) (rep : Char) :
    ∀ l : List Char, headSat p (collapseRunsGo p rep true l) = false := by
  intro l
  induction l with
  | nil => rfl
  | cons d rest ih =>
    cases hp : p d
    · simp [collapseRunsGo, hp, headSat]
    · simp [collapseRunsGo, hp, ih]

/-- No two adjacent characters of `l` both satisfy `p`. -/
def NoAdjacent (p : Char → Bool) (l : List Char) : Prop :=
  List.Chain' (fun x y => ¬(p x = true ∧ p y = true)) l

theorem noAdjacent_collapseRunsGo (p : Char → Bool) (rep : Char) :
    ∀ (b : Bool) (l : List Char), NoAdjacent p (collapseRunsGo p rep b l) := by
  intro b l
  induction l generalizing b with
  | nil => exact List.chain'_nil
  | cons d rest ih =>
    cases hp : p d
    · simp only [collapseRunsGo, hp, Bool.false_eq_true, if_false]
      refine List.chain'_cons'.2 ⟨?_, ih false⟩
      intro y hy
      intro hcontra
      exact absurd hcontra.1 (by simp [hp])
    · simp only [collapseRunsGo, hp, if_true]
      cases b with
      | true => exact ih true
      | false =>
        refine List.chain'_cons'.2 ⟨?_, ih true⟩
        intro y hy
        intro hcontra
        have := (headSat_eq_false_iff p _).1 (headSat_collapseRunsGo_true p rep rest) y hy
        exact absurd hcontra.2 (by simp [this])

theorem collapseRunsGo_true_eq_false (p : Char → Bool) (rep : Char)
    (l : List Char) (h : headSat p l = false) :
    collapseRunsGo p rep true l = collapseRunsGo p rep false l := by
  cases l with
  | nil => rfl
  | cons d rest => simp only [collapseRunsGo, headSat.eq_def] at h ⊢; simp [h]

theorem collapseRunsGo_eq_self_of_noAdjacent (p : Char → Bool) (rep : Char)
    (hrep : ∀ c, p c = true → c = rep) :
    ∀ l : List Char, NoAdjacent p l → collapseRunsGo p rep false l = l := by
  intro l
  induction l with
  | nil => intro _; rfl
  | cons d rest ih =>
    intro h
    have htail : NoAdjacent p rest := (List.chain'_cons'.1 h).2
    cases hp : p d
    · simp only [collapseRunsGo, hp, Bool.false_eq_true, if_false]
      exact congrArg (d :: ·) (ih htail)
    · have hd : d = rep := hrep d hp
      simp only [collapseRunsGo, hp, if_true]
      have hhead : headSat p rest = false := by
        rw [headSat_eq_false_iff]
        intro y hy
        have := (List.chain'_cons'.1 h).1 y hy
        by_contra hy2
        exact this ⟨hp, by simpa using hy2⟩
      rw [collapseRunsGo_true_eq_false p rep rest hhead, ih htail, hd]
      simp

theorem dropRun_eq_self_of_headFail (p : Char → Bool) (l : List Char)
    (h : headSat p l = false) : dropRun p l = l := by
  cases l with
  | nil => rfl
  | cons c rest => simp only [headSat] at h; simp [dropRun, h]

theorem mem_dropRun (p : Char → Bool) :
    ∀ l c, c ∈ dropRun p l → c ∈ l := by
  intro l
  induction l with
  | nil => intro c h; simp [dropRun] at h
  | cons d rest ih =>
    intro c h
    by_cases hp : p d = true
    · simp only [dropRun, hp, if_true] at h
      exact List.mem_cons_of_mem d (ih c h)
    · simp only [dropRun, eq_false_of_ne_true hp, Bool.false_eq_true,
        if_false] at h
      exact h

theorem headSat_dropRun (p : Char → Bool) :
    ∀ l, headSat p (dropRun p l) = false := by
  intro l
  induction l with
  | nil => rfl
  | cons d rest ih =>
    cases hp : p d
    · simp [dropRun, hp, headSat]
    · simp [dropRun, hp, ih]

theorem getLast?_dropRun (p : Char → Bool) :
    ∀ l, dropRun p l ≠ [] → (dropRun p l).getLast? = l.getLast? := by
  intro l
  induction l with
  | nil => intro h; simp [dropRun] at h
  | cons d rest ih =>
    intro h
    cases hp : p d
    · simp [dropRun, hp]
    · simp only [dropRun, hp, if_true] at h ⊢
      have hrest : rest ≠ [] := by
        intro hcon
        rw [hcon] at h
        exact h rfl
      rw [ih h]
      obtain ⟨e, t, rfl⟩ := List.exists_cons_of_ne_nil hrest
      simp

theorem noAdjacent_dropRun (p q : Char → Bool) :
    ∀ l, NoAdjacent p l → NoAdjacent p (dropRun q l) := by
  intro l
  induction l with
  | nil => intro h; exact h
  | cons d rest ih =>
    intro h
    cases hq : q d
    · simpa [dropRun, hq] using h
    · simp only [dropRun, hq, if_true]
      exact ih (List.chain'_cons'.1 h).2

theorem noAdjacent_reverse (p : Char → Bool) (l : List Char)
    (h : NoAdjacent p l) : NoAdjacent p l.reverse := by
  rw [NoAdjacent, List.chain'_reverse]
  exact h.imp fun a b hab => fun hcon => hab ⟨hcon.2, hcon.1⟩

theorem mem_stripEnds (p : Char → Bool) (l : List Char) (c : Char)
    (h : c ∈ stripEnds p l) : c ∈ l := by
  unfold stripEnds at h
  have h1 := List.mem_reverse.1 h
  have h2 := mem_dropRun p _ _ h1
  have h3 := List.mem_reverse.1 h2
  exact mem_dropRun p _ _ h3

theorem noAdjacent_stripEnds (p q : Char → Bool) (l : List Char)
    (h : NoAdjacent p l) : NoAdjacent p (stripEnds q l) := by
  unfold stripEnds
  exact noAdjacent_reverse p _
    (noAdjacent_dropRun p q _ (noAdjacent_reverse p _ (noAdjacent_dropRun p q _ h)))

theorem stripEnds_eq_self (p : Char → Bool) (l : List Char)
    (h1 : headSat p l = false) (h2 : ∀ c ∈ l.getLast?, p c = false) :
    stripEnds p l = l := by
  unfold stripEnds
  rw [dropRun_eq_self_of_headFail p l h1]
  have hrev : headSat p l.reverse = false := by
    rw [headSat_eq_false_iff]
    intro c hc
    rw [List.head?_reverse] at hc
    exact h2 c hc
  rw [dropRun_eq_self_of_headFail p l.reverse hrev, List.reverse_reverse]

theorem headSat_stripEnds (p : Char → Bool) (l : List Char) :
    headSat p (stripEnds p l) = false := by
  unfold stripEnds
  rw [headSat_eq_false_iff]
  intro c hc
  rw [List.head?_reverse] at hc
  by_cases hnil : dropRun p (dropRun p l).reverse = []
  · rw [hnil] at hc; simp at hc
  · rw [getLast?_dropRun p _ hnil] at hc
    rw [List.getLast?_reverse] at hc
    have := (headSat_eq_false_iff p (dropRun p l)).1 (headSat_dropRun p l)
    exact this c hc

theorem getLast?_stripEnds (p : Char → Bool) (l : List Char) :
    ∀ c ∈ (stripEnds p l).getLast?, p c = false := by
  intro c hc
  unfold stripEnds at hc
  rw [List.getLast?_reverse] at hc
  have := (headSat_eq_false_iff p _).1 (headSat_dropRun p (dropRun p l).reverse)
  exact this c hc

theorem map_eq_self_of_fixed {f : Char → Char} :
    ∀ l : List Char, (∀ c ∈ l, f c = c) → l.map f = l := by
  intro l
  induction l with
  | nil => intro _; rfl
  | cons d rest ih =>
    intro h
    simp only [List.map_cons, h d (List.mem_cons_self d rest)]
    exact congrArg (d :: ·) (ih fun c hc => h c (List.mem_cons_of_mem d hc))

/-! ## Character-level facts used by the slug invariants -/

theorem eq_hyphen_of_isHyphen (c : Char) (h : isHyphen c = true) : c = '-' := by
  simp only [isHyphen, beq_iff_eq] at h
  have := Char.ofNat_toNat c
  rw [h] at this
  exact this.symm.trans rfl

theorem isSlugChar_not_ws (c : Char) (h : isSlugChar c = true) :
    isPyWs c = false := by
  simp only [isSlugChar, Bool.or_eq_true, Bool.and_eq_true, decide_eq_true_eq,
    beq_iff_eq] at h
  simp only [isPyWs, Bool.or_eq_false_iff, beq_eq_false_iff_ne, ne_eq]
  omega

theorem isSlugChar_toLower (c : Char) (h : isSlugChar c = true) :
    c.toLower = c := by
  simp only [isSlugChar, Bool.or_eq_true, Bool.and_eq_true, decide_eq_true_eq,
    beq_iff_eq] at h
  unfold Char.toLower
  rw [if_neg]
  omega

theorem isSlugChar_hyphen : isSlugChar '-' = true := by decide

/-! ## Invariants of the `_slugify` output -/

theorem slugifyChars_nil : slugifyChars [] = [] := by decide

theorem mem_slugifyChars (l : List Char) :
    ∀ c ∈ slugifyChars l, isSlugChar c = true := by
  intro c hc
  unfold slugifyChars at hc
  by_cases hemp : ((stripEnds isPyWs l).map Char.toLower).isEmpty = true
  · rw [if_pos hemp] at hc; simp at hc
  · rw [if_neg hemp] at hc
    have h1 := mem_stripEnds isHyphenUnderscore _ c hc
    rcases mem_collapseRunsGo isHyphen '-' false _ c h1 with h2 | h2
    · rw [h2]; exact isSlugChar_hyphen
    rcases mem_collapseRunsGo (fun c => !(isSlugChar c)) '-' false _ c h2.1
      with h3 | h3
    · rw [h3]; exact isSlugChar_hyphen
    · simpa using h3.2

theorem noAdjacent_slugifyChars (l : List Char) :
    NoAdjacent isHyphen (slugifyChars l) := by
  unfold slugifyChars
  by_cases hemp : ((stripEnds isPyWs l).map Char.toLower).isEmpty = true
  · rw [if_pos hemp]; exact List.chain'_nil
  · rw [if_neg hemp]
    exact noAdjacent_stripEnds isHyphen isHyphenUnderscore _
      (noAdjacent_collapseRunsGo isHyphen '-' false _)

theorem headSat_slugifyChars (l : List Char) :
    headSat isHyphenUnderscore (slugifyChars l) = false := by
  unfold slugifyChars
  by_cases hemp : ((stripEnds isPyWs l).map Char.toLower).isEmpty = true
  · rw [if_pos hemp]; rfl
  · rw [if_neg hemp]; exact headSat_stripEnds isHyphenUnderscore _

theorem getLast?_slugifyChars (l : List Char) :
    ∀ c ∈ (slugifyChars l).getLast?, isHyphenUnderscore c = false := by
  unfold slugifyChars
  by_cases hemp : ((stripEnds isPyWs l).map Char.toLower).isEmpty = true
  · rw [if_pos hemp]; intro c hc; simp at hc
  · rw [if_neg hemp]; exact getLast?_stripEnds isHyphenUnderscore _

theorem slugifyChars_idem (l : List Char) :
    slugifyChars (slugifyChars l) = slugifyChars l := by
  by_cases hout : slugifyChars l = []
  · rw [hout]; exact slugifyChars_nil
  · have hmem := mem_slugifyChars l
    have hchain := noAdjacent_slugifyChars l
    have hhead := headSat_slugifyChars l
    have hlast := getLast?_slugifyChars l
    set out := slugifyChars l with hdef
    have hws : ∀ c ∈ out, isPyWs c = false := fun c hc =>
      isSlugChar_not_ws c (hmem c hc)
    have hstrip1 : stripEnds isPyWs out = out := by
      apply stripEnds_eq_self
      · rw [headSat_eq_false_iff]
        intro c hc
        exact hws c (List.mem_of_mem_head? hc)
      · intro c hc
        exact hws c (List.mem_of_mem_getLast? hc)
    have hmap : out.map Char.toLower = out :=
      map_eq_self_of_fixed out fun c hc => isSlugChar_toLower c (hmem c hc)
    have hne : out.isEmpty = false := by
      cases h : out.isEmpty
      · rfl
      · exact absurd (List.isEmpty_iff.1 h) hout
    show slugifyChars out = out
    unfold slugifyChars
    rw [hstrip1, hmap]
    simp only [hne, Bool.false_eq_true, if_false]
    have hcoll1 : collapseRuns isPyWs '-' out = out :=
      collapseRunsGo_eq_self isPyWs '-' false out hws
    have hcoll2 : collapseRuns (fun c => !(isSlugChar c)) '-' out = out := by
      apply collapseRunsGo_eq_self
      intro c hc
      simp [hmem c hc]
    have hcoll3 : collapseRuns isHyphen '-' out = out :=
      collapseRunsGo_eq_self_of_noAdjacent isHyphen '-'
        (fun c hc => eq_hyphen_of_isHyphen c hc) out hchain
    rw [hcoll1, hcoll2, hcoll3]
    apply stripEnds_eq_self
    · exact hhead
    · exact hlast

/-! ## Canonical ExecPlan identity (`execplan_identity.py`) -/

/-- Every character is an ASCII digit. -/
def allDigits (l : List Char) : Bool := l.all Char.isDigit

/-- Numeric value of a digit run (`int` on the matched group). -/
def digitsToNat (l : List Char) : Nat :=
  l.foldl (fun a c => a * 10 + (c.toNat - 48)) 0

/-- `EXECPLAN_FILENAME_RE.match` from `execplan_identity.py`:
`^EP-\d{8}-\d{3}` followed by either the end of the string or a `_`/`-`
and arbitrary text.  Returns `(id, date_token, sequence)` as
`parse_execplan_filename` does. -/
def parse_execplan_filename (filename : String) : Option (String × String × Nat) :=
  match filename.data with
  | 'E' :: 'P' :: '-' :: rest =>
    let d8 := rest.take 8
    let r1 := rest.drop 8
    if d8.length == 8 && allDigits d8 then
      match r1 with
      | '-' :: r2 =>
        let d3 := r2.take 3
        let r3 := r2.drop 3
        if d3.length == 3 && allDigits d3 &&
            (r3.isEmpty || headSat (fun c => c == '_' || c == '-') r3) then
          some (String.mk ('E' :: 'P' :: '-' :: (d8 ++ '-' :: d3)),
                String.mk d8, digitsToNat d3)
        else none
      | _ => none
    else none
  | _ => none

/-- `extract_execplan_id_from_filename`. -/
def extract_execplan_id_from_filename (filename : String) : Option String :=
  (parse_execplan_filename filename).map (fun x => x.1)

/-- `EXECPLAN_ID_RE.fullmatch`: the whole string is `EP-YYYYMMDD-NNN`.
Expressed through the anchored-prefix parser: the parse must succeed
and consume the entire string. -/
def is_execplan_id (s : String) : Bool :=
  match parse_execplan_filename s with
  | some (id2, _, _) => id2 == s
  | none => false

example : is_execplan_id "EP-20260207-001" = true := by decide
example : is_execplan_id "EP-20260207-001_x" = false := by decide
example : parse_execplan_filename "EP-20260207-012_auth.md" =
    some ("EP-20260207-012", "20260207", 12) := by decide
example : parse_execplan_filename "EP-2026020-012.md" = none := by decide

/-! ## Milestone identity (`milestones.py` regexes) -/

/-- `MILESTONE_ID_RE.fullmatch` on the stripped value:
`EP-YYYYMMDD-NNN/MS###`, giving `(execplan_id, sequence)`
(`parse_milestone_id`). -/
def parse_milestone_id (value : String) : Option (String × Nat) :=
  let v := stripEnds isPyWs value.data
  let idPart := v.take 15
  match v.drop 15 with
  | '/' :: 'M' :: 'S' :: d3 =>
    if is_execplan_id (String.mk idPart) && d3.length == 3 && allDigits d3 then
      some (String.mk idPart, digitsToNat d3)
    else none
  | _ => none

example : parse_milestone_id "EP-20260207-001/MS002" =
    some ("EP-20260207-001", 2) := by decide
example : parse_milestone_id "EP-20260207-001/MS0021" = none := by decide

/-- The milestone slug class `[A-Za-z0-9][A-Za-z0-9_-]*`. -/
def msSlugOk (l : List Char) : Bool :=
  match l with
  | [] => false
  | c :: rest =>
    c.isAlphanum && rest.all (fun d => d.isAlphanum || d == '_' || d == '-')

/-- The optional `(?:[_-](?P<slug>[A-Za-z0-9][A-Za-z0-9_-]*))?` tail of
the milestone filename patterns (everything before the final `.md`).
Returns the captured slug, or `none` for the empty tail; fails when the
tail is nonempty but not of that shape. -/
def msOptSuffix (l : List Char) : Option (Option String) :=
  match l with
  | [] => some none
  | c :: rest =>
    if (c == '_' || c == '-') && msSlugOk rest then some (some (String.mk rest))
    else none

/-- `LEGACY_MILESTONE_FILENAME_RE` body (filename without `.md`):
`EP-YYYYMMDD-NNN_MS###` plus optional slug tail. -/
def parse_legacy_ms_core (core : List Char) : Option (String × Nat × Option String) :=
  let idPart := core.take 15
  match core.drop 15 with
  | '_' :: 'M' :: 'S' :: rest =>
    let d3 := rest.take 3
    let after := rest.drop 3
    if is_execplan_id (String.mk idPart) && d3.length == 3 && allDigits d3 then
      match msOptSuffix after with
      | some slugOpt => some (String.mk idPart, digitsToNat d3, slugOpt)
      | none => none
    else none
  | _ => none

/-- `MILESTONE_FILENAME_RE` body: `MS###` plus optional slug tail. -/
def parse_current_ms_core (core : List Char) : Option (Nat × Option String) :=
  match core with
  | 'M' :: 'S' :: rest =>
    let d3 := rest.take 3
    let after := rest.drop 3
    if d3.length == 3 && allDigits d3 then
      (msOptSuffix after).map (fun so => (digitsToNat d3, so))
    else none
  | _ => none

/-- `parse_milestone_filename`: try the legacy pattern first, then the
current one; both require the `.md` suffix (fullmatch). -/
def parse_milestone_filename (filename : String) :
    Option (Option String × Nat × Option String) :=
  match filename.data.reverse with
  | 'd' :: 'm' :: '.' :: revCore =>
    let core := revCore.reverse
    match parse_legacy_ms_core core with
    | some (id2, seq, slug) => some (some id2, seq, slug)
    | none => (parse_current_ms_core core).map (fun x => (none, x.1, x.2))
  | _ => none

example : parse_milestone_filename "MS001_proto.md" =
    some (none, 1, some "proto") := by decide
example : parse_milestone_filename "EP-20260207-001_MS002_x.md" =
    some (some "EP-20260207-001", 2, some "x") := by decide
example : parse_milestone_filename "MS001-.md" = none := by decide
example : parse_milestone_filename "MS001.md" = some (none, 1, none) := by decide

/-! ## Path classifier (`paths.py`)

Paths are modelled as their component lists relative to the execplans
root (`_parts_relative_to`); a path outside the root (`parts is None`
in the source) is simply not in the function domain here, and plan
roots are returned as component lists relative to the same root. -/

abbrev PathParts := List String

def MILESTONES_DIR : String := "milestones"
def ACTIVE_DIR : String := "active"
def ARCHIVE_DIR : String := "archive"
def EXECPLAN_ACTIVE_DIR : String := "active"
def EXECPLAN_ARCHIVE_DIR : String := "archive"

/-- `_looks_like_archive_date`: `^\d{4}$`, `^\d{2}$`, `^\d{2}$` and the
month/day range checks. -/
def looks_like_archive_date (y m d : String) : Bool :=
  y.data.length == 4 && allDigits y.data &&
    (m.data.length == 2 && allDigits m.data) &&
    (d.data.length == 2 && allDigits d.data) &&
    (1 ≤ digitsToNat m.data && digitsToNat m.data ≤ 12) &&
    (1 ≤ digitsToNat d.data && digitsToNat d.data ≤ 31)

/-- `_classify_execplan_layout`, branch for branch in source order:
current active, legacy reserved active slug, current archive, legacy
archive, legacy active.  Returns `(plan_root, is_archived)`. -/
def classify_execplan_layout (parts : PathParts) : Option (PathParts × Bool) :=
  let n := parts.length
  let g := fun i => parts.getD i ""
  if n ≥ 3 && g 0 == EXECPLAN_ACTIVE_DIR then
    some ([EXECPLAN_ACTIVE_DIR, g 1], false)
  else if n ≥ 2 && g 0 == EXECPLAN_ACTIVE_DIR then
    some ([EXECPLAN_ACTIVE_DIR], false)
  else if n ≥ 6 && g 0 == EXECPLAN_ARCHIVE_DIR &&
      looks_like_archive_date (g 1) (g 2) (g 3) then
    some ([EXECPLAN_ARCHIVE_DIR, g 1, g 2, g 3, g 4], true)
  else if n ≥ 3 && g 1 == EXECPLAN_ARCHIVE_DIR && g 0 != EXECPLAN_ACTIVE_DIR then
    some ([g 0, EXECPLAN_ARCHIVE_DIR], true)
  else if n ≥ 2 && g 0 != EXECPLAN_ACTIVE_DIR then
    some ([g 0], false)
  else none

/-- `is_execplan_milestone_path`: the four milestone subtree shapes. -/
def is_execplan_milestone_path (parts : PathParts) : Bool :=
  let n := parts.length
  let g := fun i => parts.getD i ""
  (n ≥ 4 && g 0 == EXECPLAN_ACTIVE_DIR && g 2 == MILESTONES_DIR &&
      (g 3 == ACTIVE_DIR || g 3 == ARCHIVE_DIR)) ||
    (n ≥ 7 && g 0 == EXECPLAN_ARCHIVE_DIR &&
      looks_like_archive_date (g 1) (g 2) (g 3) && g 5 == MILESTONES_DIR &&
      (g 6 == ACTIVE_DIR || g 6 == ARCHIVE_DIR)) ||
    (n ≥ 3 && g 1 == MILESTONES_DIR && (g 2 == ACTIVE_DIR || g 2 == ARCHIVE_DIR)) ||
    (n ≥ 4 && g 1 == EXECPLAN_ARCHIVE_DIR && g 2 == MILESTONES_DIR &&
      (g 3 == ACTIVE_DIR || g 3 == ARCHIVE_DIR))

/-- `get_execplan_plan_root`: the plan root when a layout matches;
`none` models the raised classification `ValueError`. -/
def get_execplan_plan_root (parts : PathParts) : Option PathParts :=
  (classify_execplan_layout parts).map (fun x => x.1)

/-- `is_execplan_archive_path`: milestone paths are never archive
paths; otherwise use the layout classification (unclassifiable paths
give `False`). -/
def is_execplan_archive_path (parts : PathParts) : Bool :=
  if is_execplan_milestone_path parts then false
  else
    match classify_execplan_layout parts with
    | some (_, archived) => archived
    | none => false

example : classify_execplan_layout ["active", "auth", "EP-1.md"] =
    some (["active", "auth"], false) := by decide
example : classify_execplan_layout ["active", "EP-1.md"] =
    some (["active"], false) := by decide
example : classify_execplan_layout
    ["archive", "2026", "02", "12", "EP-x_auth", "EP-1.md", "z"] =
      some (["archive", "2026", "02", "12", "EP-x_auth"], true) := by decide
example : classify_execplan_layout ["slug", "archive", "EP-1.md"] =
    some (["slug", "archive"], true) := by decide
example : classify_execplan_layout ["slug", "EP-1.md"] =
    some (["slug"], false) := by decide
example : classify_execplan_layout ["EP-1.md"] = none := by decide
example : is_execplan_milestone_path
    ["active", "auth", "milestones", "active", "MS001_x.md"] = true := by decide

/-! ## Ordered layout pattern tables (for the claim about priority)

The design notes of the specification describe the classifier as a
fixed-order list of (predicate, extractor) pairs.  `firstMatch` is that
generic mechanism; the two tables below spell the five layout shapes in
the order the claim states them and in the order the code checks
them. -/

structure LayoutPattern where
  guard : PathParts → Bool
  root : PathParts → PathParts
  archived : Bool

def firstMatch : List LayoutPattern → PathParts → Option (PathParts × Bool)
  | [], _ => none
  | pat :: rest, parts =>
    if pat.guard parts then some (pat.root parts, pat.archived)
    else firstMatch rest parts

/-- Shape `active/<slug>/…`. -/
def currentActivePat : LayoutPattern :=
  ⟨fun parts => parts.length ≥ 3 && parts.getD 0 "" == EXECPLAN_ACTIVE_DIR,
   fun parts => [EXECPLAN_ACTIVE_DIR, parts.getD 1 ""], false⟩

/-- Shape `archive/YYYY/MM/DD/<slug>/…`. -/
def currentArchivedPat : LayoutPattern :=
  ⟨fun parts => parts.length ≥ 6 && parts.getD 0 "" == EXECPLAN_ARCHIVE_DIR &&
      looks_like_archive_date (parts.getD 1 "") (parts.getD 2 "") (parts.getD 3 ""),
   fun parts => [EXECPLAN_ARCHIVE_DIR, parts.getD 1 "", parts.getD 2 "",
      parts.getD 3 "", parts.getD 4 ""], true⟩

/-- Shape `<slug>/…` with no further constraint, as the claim lists it. -/
def legacyBarePat : LayoutPattern :=
  ⟨fun parts => parts.length ≥ 2, fun parts => [parts.getD 0 ""], false⟩

/-- Shape `<slug>/archive/…` with no further constraint, as the claim
lists it. -/
def legacyArchivedPat : LayoutPattern :=
  ⟨fun parts => parts.length ≥ 2 + 1 && parts.getD 1 "" == EXECPLAN_ARCHIVE_DIR,
   fun parts => [parts.getD 0 "", EXECPLAN_ARCHIVE_DIR], true⟩

/-- Shape `active/<file>` directly (legacy shared active root). -/
def legacySharedActivePat : LayoutPattern :=
  ⟨fun parts => parts.length ≥ 2 && parts.getD 0 "" == EXECPLAN_ACTIVE_DIR,
   fun _ => [EXECPLAN_ACTIVE_DIR], false⟩

/-- Shape `<slug>/archive/…` excluding `active/` roots, as the code
guards it. -/
def legacyArchivedExclPat : LayoutPattern :=
  ⟨fun parts => parts.length ≥ 2 + 1 && parts.getD 1 "" == EXECPLAN_ARCHIVE_DIR &&
      parts.getD 0 "" != EXECPLAN_ACTIVE_DIR,
   fun parts => [parts.getD 0 "", EXECPLAN_ARCHIVE_DIR], true⟩

/-- Shape `<slug>/…` excluding `active/` roots, as the code guards it. -/
def legacyBareExclPat : LayoutPattern :=
  ⟨fun parts => parts.length ≥ 2 && parts.getD 0 "" != EXECPLAN_ACTIVE_DIR,
   fun parts => [parts.getD 0 ""], false⟩

/-- The priority order as the claim states it. -/
def claimOrderTable : List LayoutPattern :=
  [currentActivePat, currentArchivedPat, legacyBarePat, legacyArchivedPat,
   legacySharedActivePat]

/-- The priority order the code implements. -/
def codeOrderTable : List LayoutPattern :=
  [currentActivePat, legacySharedActivePat, currentArchivedPat,
   legacyArchivedExclPat, legacyBareExclPat]

/-! ## Filesystem model

Files map paths to documents; directories are tracked separately so
that `mkdir`/`exists` behaviour is visible.  All paths are component
lists relative to one fixed root.  `os.replace` is modelled as a single
transition; its overwrite semantics appear as the `filter` on the
destination (every flow below checks the destination first, so the
filter is vacuous there). -/

inductive Doc
  | raw (text : String)
  | fm (fields : List (String × String)) (body : String)
deriving Repr, DecidableEq

structure FS where
  files : List (PathParts × Doc)
  dirs : List PathParts
deriving Repr, DecidableEq

/-- `a` is an initial segment of `b` (`b` is at or below `a`). -/
def leadsTo : PathParts → PathParts → Bool
  | [], _ => true
  | _ :: _, [] => false
  | a :: as, b :: bs => a == b && leadsTo as bs

/-- `b` is strictly below directory `a`. -/
def strictlyInside (a b : PathParts) : Bool :=
  leadsTo a b && decide (a.length < b.length)

def getFile (fs : FS) (p : PathParts) : Option Doc :=
  (fs.files.find? (fun f => f.1 == p)).map (fun f => f.2)

def hasFile (fs : FS) (p : PathParts) : Bool :=
  (getFile fs p).isSome

/-- `Path.exists`: a directory entry, a file at the path, or a file
strictly below it (a real tree cannot hold the latter without the
former, but the model keeps the check honest). -/
def existsPath (fs : FS) (p : PathParts) : Bool :=
  fs.dirs.contains p || fs.files.any (fun f => f.1 == p || strictlyInside p f.1)

/-- Every nonempty initial segment of `p`, shortest first. -/
def ancestors : PathParts → List PathParts
  | [] => []
  | a :: rest => [a] :: (ancestors rest).map (fun q => a :: q)

/-- `Path.mkdir(parents=True, exist_ok=True)`. -/
def mkdirParents (fs : FS) (p : PathParts) : FS :=
  { fs with
    dirs := (ancestors p).foldl
      (fun ds q => if ds.contains q then ds else ds ++ [q]) fs.dirs }

/-- Best-effort `rmdir` (its failure is swallowed in the source, so the
model only drops the directory entry). -/
def rmdirEntry (fs : FS) (p : PathParts) : FS :=
  { fs with dirs := fs.dirs.filter (fun q => !(q == p)) }

def moveFileEntry (src dst : PathParts) (f : PathParts × Doc) :
    Option (PathParts × Doc) :=
  if f.1 == dst then none
  else if f.1 == src then some (dst, f.2)
  else some f

/-- `os.replace` on a single file. -/
def moveFile (fs : FS) (src dst : PathParts) : FS :=
  { fs with files := fs.files.filterMap (moveFileEntry src dst) }

def moveTreeEntry (src dst : PathParts) (f : PathParts × Doc) :
    Option (PathParts × Doc) :=
  if leadsTo dst f.1 then none
  else if leadsTo src f.1 then some (dst ++ f.1.drop src.length, f.2)
  else some f

/-- `os.replace` on a directory subtree. -/
def moveTree (fs : FS) (src dst : PathParts) : FS :=
  { fs with
    files := fs.files.filterMap (moveTreeEntry src dst),
    dirs := (fs.dirs.filter (fun q => !(leadsTo dst q))).map
      (fun q => if leadsTo src q then dst ++ q.drop src.length else q) }

/-- Atomic overwrite-or-create (`_atomic_write_text`: temp file, fsync,
`os.replace` onto the target). -/
def writeFile (fs : FS) (p : PathParts) (d : Doc) : FS :=
  if hasFile fs p then
    { fs with files := fs.files.map (fun f => if f.1 == p then (p, d) else f) }
  else { fs with files := fs.files ++ [(p, d)] }

/-- `open(path, "x")`: create-exclusive; `none` is `FileExistsError`. -/
def createExclusive (fs : FS) (p : PathParts) (d : Doc) : Option FS :=
  if hasFile fs p then none else some { fs with files := fs.files ++ [(p, d)] }

/-- External deletion of a file (not an engine operation; used to state
the claim about milestone-sequence reuse). -/
def removeFile (fs : FS) (p : PathParts) : FS :=
  { fs with files := fs.files.filter (fun f => !(f.1 == p)) }

/-- `path.name`. -/
def lastComponent (p : PathParts) : String := (p.getLast?).getD ""

/-- `pat` is an initial segment of `l`. -/
def charsStart : List Char → List Char → Bool
  | [], _ => true
  | _ :: _, [] => false
  | a :: as, b :: bs => a == b && charsStart as bs

/-- `fnmatch` for the glob `EP-*.md`: starts with `EP-`, ends with
`.md`, and the star consumes a possibly empty middle. -/
def matchesEpGlob (name : String) : Bool :=
  charsStart ['E', 'P', '-'] name.data &&
    charsStart ['d', 'm', '.'] name.data.reverse && name.data.length ≥ 6

/-- `fnmatch` for the glob `*.md`. -/
def matchesMdGlob (name : String) : Bool :=
  charsStart ['d', 'm', '.'] name.data.reverse

/-- `_iter_execplan_files`: `rglob("EP-*.md")` under the execplans
directory, keeping files that are not milestone artifacts (the
classifier sees parts relative to the execplans root). -/
def iter_execplan_files (fs : FS) (dir : PathParts) : List PathParts :=
  (fs.files.map (fun f => f.1)).filter (fun p =>
    strictlyInside dir p && matchesEpGlob (lastComponent p) &&
      !(is_execplan_milestone_path (p.drop dir.length)))

/-- `_iter_execplan_files_within_plan_root`. -/
def iter_execplan_files_within (fs : FS) (planRoot dir : PathParts) :
    List PathParts :=
  (fs.files.map (fun f => f.1)).filter (fun p =>
    strictlyInside planRoot p && matchesEpGlob (lastComponent p) &&
      !(is_execplan_milestone_path (p.drop dir.length)))

/-- Well-formed trees: every proper nonempty ancestor of a file is a
directory entry, and ancestors of directory entries are directory
entries. -/
def WfFS (fs : FS) : Prop :=
  (∀ f ∈ fs.files, ∀ q ∈ ancestors f.1, q ≠ f.1 → q ∈ fs.dirs) ∧
    (∀ d ∈ fs.dirs, ∀ q ∈ ancestors d, q ∈ fs.dirs)

/-! ## Document store: `create_execplan` (`creator.py`) -/

def ALLOWED_KINDS : List String :=
  ["feature", "refactor", "bugfix", "migration", "infra", "spike", "perf",
   "docs", "tests"]

def ALLOWED_DOMAINS : List String :=
  ["backend", "frontend", "console", "infra", "cross-cutting", "fullstack"]

def RESERVED_EXECPLAN_ROOT_SLUGS : List String :=
  [EXECPLAN_ACTIVE_DIR, EXECPLAN_ARCHIVE_DIR]

def RESERVED_ACTIVE_PLAN_SLUGS : List String :=
  [MILESTONES_DIR]

/-- `str.strip()` (ASCII whitespace). -/
def pyStrip (s : String) : String := String.mk (stripEnds isPyWs s.data)

/-- `_validate_single_line_field`: any of `\n`, `\r`, `\t` present. -/
def containsCtl (s : String) : Bool :=
  s.data.any (fun c => c == '\n' || c == '\r' || c == '\t')

def isLeapYear (y : Nat) : Bool :=
  (y % 4 == 0 && y % 100 != 0) || y % 400 == 0

def daysInMonth (y m : Nat) : Nat :=
  if m == 2 then (if isLeapYear y then 29 else 28)
  else if m == 4 || m == 6 || m == 9 || m == 11 then 30
  else 31

/-- `_validate_date_yyyymmdd`: `^\d{8}$` plus
`datetime.strptime(value, "%Y%m%d")` (proleptic Gregorian calendar,
year 1-9999).  Returns `(year, month, day)`. -/
def validate_date_yyyymmdd (s : String) : Option (Nat × Nat × Nat) :=
  let l := s.data
  if l.length == 8 && allDigits l then
    let y := digitsToNat (l.take 4)
    let m := digitsToNat ((l.drop 4).take 2)
    let d := digitsToNat (l.drop 6)
    if 1 ≤ y && 1 ≤ m && m ≤ 12 && 1 ≤ d && d ≤ daysInMonth y m then
      some (y, m, d)
    else none
  else none

/-- `strftime("%Y-%m-%d")` of a parsed `YYYYMMDD` token (strptime then
strftime reproduces the zero-padded digits). -/
def dateDashed (s : String) : String :=
  String.mk ((s.data.take 4) ++ '-' :: ((s.data.drop 4).take 2) ++
    '-' :: (s.data.drop 6))

def dateYear (s : String) : String := String.mk (s.data.take 4)
def dateMonth (s : String) : String := String.mk ((s.data.drop 4).take 2)
def dateDay (s : String) : String := String.mk (s.data.drop 6)

/-- `f"{n:03d}"` for the sequence field. -/
def pad3 (n : Nat) : String :=
  if n < 10 then "00" ++ toString n
  else if n < 100 then "0" ++ toString n
  else toString n

/-- `_next_sequence_for_date`: running maximum over the day-matching
plan files, plus one. -/
def next_sequence_for_date (fs : FS) (dir : PathParts) (day : String) : Nat :=
  (iter_execplan_files fs dir).foldl
    (fun mx p =>
      match parse_execplan_filename (lastComponent p) with
      | some (_, dt, seq) => if dt == day then max mx seq else mx
      | none => mx) 0 + 1

/-- Modelled from the spec: the packaged `EXECPLAN_TEMPLATE.md` data
file is not under `src/`; per §3 and §8 the rendered document carries
YAML front matter with the identity fields and `status: planned`, plus
a free-form body. -/
def renderExecplanTemplate (planId title kind domain owner created : String) :
    Doc :=
  Doc.fm
    [("id", planId), ("title", title), ("status", "planned"), ("kind", kind),
     ("domain", domain), ("owner", owner), ("created", created),
     ("updated", created)] ""

inductive CreateErr
  | titleCtl | titleEmpty | badKind | badDomain | ownerCtl | ownerEmpty
  | slugEmpty | slugReservedRoot | slugReservedMilestones | badDate
  | slugCollision | seqOverflow | fileRace
deriving Repr, DecidableEq

/-- The `ValueError` cases of `create_execplan` (`fileRace` is the
`FileExistsError` from `open("x")`, not a validation error). -/
def CreateErr.isValidation : CreateErr → Bool
  | .fileRace => false
  | _ => true

structure CreateOk where
  plan_id : String
  plan_path : PathParts
  slug : String
deriving Repr, DecidableEq

/-- The validation stage of `create_execplan` (`creator.py` lines
288-318), in source order: title, kind, domain, owner, slug
(emptiness, reserved root names, reserved milestone namespace), date.
On success it returns the normalized
`(title, kind, domain, owner, slug)`. -/
def create_validate (title : String) (slugArg : Option String)
    (owner kind domain day : String) :
    Except CreateErr (String × String × String × String × String) :=
  if containsCtl (pyStrip title) then .error .titleCtl
  else if pyStrip title == "" then .error .titleEmpty
  else if !(ALLOWED_KINDS.contains (pyStrip kind)) then .error .badKind
  else if !(ALLOWED_DOMAINS.contains (pyStrip domain)) then .error .badDomain
  else if containsCtl (pyStrip owner) then .error .ownerCtl
  else if pyStrip owner == "" then .error .ownerEmpty
  else if slugify (slugArg.getD (pyStrip title)) == "" then .error .slugEmpty
  else if RESERVED_EXECPLAN_ROOT_SLUGS.contains
      (slugify (slugArg.getD (pyStrip title))) then .error .slugReservedRoot
  else if RESERVED_ACTIVE_PLAN_SLUGS.contains
      (slugify (slugArg.getD (pyStrip title))) then
    .error .slugReservedMilestones
  else
    match validate_date_yyyymmdd day with
    | none => .error .badDate
    | some _ =>
      .ok (pyStrip title, pyStrip kind, pyStrip domain, pyStrip owner,
        slugify (slugArg.getD (pyStrip title)))

/-- `create_execplan` (`creator.py` lines 269-376), without the
optional registry rebuild: the rebuild runs only after the plan file
was written successfully and is modelled separately
(`build_execplan_registry`).  `dir` is the resolved execplans
directory; `day` is the explicit `date_yyyymmdd` argument (the
`_today_yyyymmdd_local()` default is an external clock read).  After
validation: ensure the execplans directory, reject a slug-directory
collision, allocate the day sequence (overflow above 999), then write
create-exclusively at `active/<slug>/<id>_<slug>.md`. -/
def create_execplan (fs : FS) (dir : PathParts) (title : String)
    (slug : Option String) (owner kind domain day : String) :
    Except CreateErr CreateOk × FS :=
  match create_validate title slug owner kind domain day with
  | .error e => (.error e, fs)
  | .ok (t, k, dm, ow, chosen) =>
    if !(if existsPath (mkdirParents fs dir)
            (dir ++ [EXECPLAN_ACTIVE_DIR, chosen]) then
          iter_execplan_files_within (mkdirParents fs dir)
            (dir ++ [EXECPLAN_ACTIVE_DIR, chosen]) dir
        else []).isEmpty then
      (.error .slugCollision, mkdirParents fs dir)
    else if next_sequence_for_date (mkdirParents fs dir) dir day > 999 then
      (.error .seqOverflow, mkdirParents fs dir)
    else
      match createExclusive
          (mkdirParents (mkdirParents fs dir) (dir ++ [EXECPLAN_ACTIVE_DIR, chosen]))
          (dir ++ [EXECPLAN_ACTIVE_DIR, chosen,
            "EP-" ++ day ++ "-" ++
              pad3 (next_sequence_for_date (mkdirParents fs dir) dir day) ++
              "_" ++ chosen ++ ".md"])
          (renderExecplanTemplate
            ("EP-" ++ day ++ "-" ++
              pad3 (next_sequence_for_date (mkdirParents fs dir) dir day))
            t k dm ow (dateDashed day)) with
      | none =>
        (.error .fileRace,
          mkdirParents (mkdirParents fs dir) (dir ++ [EXECPLAN_ACTIVE_DIR, chosen]))
      | some fs3 =>
        (.ok ⟨"EP-" ++ day ++ "-" ++
            pad3 (next_sequence_for_date (mkdirParents fs dir) dir day),
          dir ++ [EXECPLAN_ACTIVE_DIR, chosen,
            "EP-" ++ day ++ "-" ++
              pad3 (next_sequence_for_date (mkdirParents fs dir) dir day) ++
              "_" ++ chosen ++ ".md"],
          chosen⟩, fs3)

deriving instance DecidableEq for Except

example :
    (create_execplan ⟨[], []⟩ ["ep"] "Auth Refresh" none "@codex" "feature"
        "backend" "20260207").1 =
      .ok ⟨"EP-20260207-001",
        ["ep", "active", "auth-refresh", "EP-20260207-001_auth-refresh.md"],
        "auth-refresh"⟩ := by decide

example :
    (create_execplan ⟨[(["ep", "active", "demo", "EP-20260207-001_demo.md"],
        Doc.raw "x")], [["ep"], ["ep", "active"], ["ep", "active", "demo"]]⟩
      ["ep"] "Second" none "@codex" "feature" "backend" "20260207").1 =
      .ok ⟨"EP-20260207-002",
        ["ep", "active", "second", "EP-20260207-002_second.md"], "second"⟩ := by
  decide

example :
    (create_execplan ⟨[], []⟩ ["ep"] "  " none "@codex" "feature" "backend"
      "20260207").1 = .error .titleEmpty := by decide

example :
    (create_execplan ⟨[], []⟩ ["ep"] "...." none "@codex" "feature" "backend"
      "20260207").1 = .error .slugEmpty := by decide

/-! ## Milestones (`milestones.py`) -/

/-- `str(metadata.get(key, ""))` over the parsed front matter. -/
def lookupField (fields : List (String × String)) (key : String) : String :=
  ((fields.find? (fun kv => kv.1 == key)).map (fun kv => kv.2)).getD ""

/-- Update a front-matter key in place, appending when absent (Python
dict assignment preserves insertion order). -/
def setField (fields : List (String × String)) (key value : String) :
    List (String × String) :=
  if fields.any (fun kv => kv.1 == key) then
    fields.map (fun kv => if kv.1 == key then (key, value) else kv)
  else fields ++ [(key, value)]

/-- `_extract_milestone_execplan_id_with_error` at document level:
`raw` stands for any content whose front matter does not yield a
usable mapping (unreadable, bad YAML, or missing/invalid
`execplan_id`); the distinct message texts are not claim-relevant, so
the error side is a Boolean. -/
def front_matter_execplan_id (d : Doc) : Option String × Bool :=
  match d with
  | .raw _ => (none, true)
  | .fm fields _ =>
    let candidate := pyStrip (lookupField fields "execplan_id")
    if is_execplan_id candidate then (some candidate, false)
    else (none, true)

/-- One row of `scan_plan_milestone_files` (`MilestoneFileScan`):
`parse_error` is kept as a Boolean presence flag. -/
structure MilestoneFileScan where
  path : PathParts
  sequence : Nat
  isActive : Bool
  execplan_id : Option String
  parse_error : Bool
deriving Repr, DecidableEq

/-- `scan_plan_milestone_files`: every `*.md` file under
`plan_root/milestones` whose name parses as a milestone filename and
whose first component below `milestones/` is `active` or `archive`.
The source also sorts the rows; no claim depends on the order, and the
aggregations below are order-independent. -/
def scan_plan_milestone_files (fs : FS) (planRoot : PathParts) :
    List MilestoneFileScan :=
  let msRoot := planRoot ++ [MILESTONES_DIR]
  if !(existsPath fs msRoot) then []
  else
    fs.files.filterMap (fun f =>
      if strictlyInside msRoot f.1 && matchesMdGlob (lastComponent f.1) then
        match parse_milestone_filename (lastComponent f.1) with
        | none => none
        | some (pid, seq, _) =>
          let rel := f.1.drop msRoot.length
          let loc := rel.getD 0 ""
          if loc == ACTIVE_DIR || loc == ARCHIVE_DIR then
            match pid with
            | some pid2 => some ⟨f.1, seq, loc == ACTIVE_DIR, some pid2, false⟩
            | none =>
              let (eid, err) := front_matter_execplan_id f.2
              some ⟨f.1, seq, loc == ACTIVE_DIR, eid, err⟩
          else none
      else none)

/-- `list_invalid_active_milestone_files`. -/
def list_invalid_active_milestone_files (fs : FS) (planRoot : PathParts) :
    List MilestoneFileScan :=
  (scan_plan_milestone_files fs planRoot).filter
    (fun x => x.isActive && x.parse_error)

/-- `_next_milestone_sequence`: maximum over owned rows and malformed
active rows, plus one. -/
def next_milestone_sequence (fs : FS) (planRoot : PathParts) (id : String) :
    Nat :=
  (scan_plan_milestone_files fs planRoot).foldl
    (fun mx x =>
      if x.execplan_id == some id then max mx x.sequence
      else if x.isActive && x.parse_error then max mx x.sequence
      else mx) 0 + 1

/-- `_extract_milestone_execplan_id` (filename identity first, then
front matter). -/
def extract_milestone_execplan_id (p : PathParts) (d : Doc) : Option String :=
  match extract_execplan_id_from_filename (lastComponent p) with
  | some fid => some fid
  | none => (front_matter_execplan_id d).1

/-- `_is_milestone_owned_by_execplan`. -/
def is_milestone_owned_by_execplan (p : PathParts) (d : Doc) (id : String) :
    Bool :=
  match parse_milestone_filename (lastComponent p) with
  | none => false
  | some (some pid, _, _) => pid == id
  | some (none, _, _) => extract_milestone_execplan_id p d == some id

/-- One row of `_scan_active_milestone_front_matter`
(`ActiveMilestoneArchiveScanEntry`), with the Boolean error flag. -/
structure ActiveMilestoneScanEntry where
  path : PathParts
  execplan_id : Option String
  sequence : Option Nat
  parse_error : Bool
deriving Repr, DecidableEq

/-- `_scan_active_milestone_front_matter`: front matter is the source
of truth; the row is an error when the front matter is unusable, the
`execplan_id` is invalid, the `id` does not parse as
`EP-YYYYMMDD-NNN/MS###`, or the two disagree. -/
def scan_active_milestone_front_matter (p : PathParts) (d : Doc) :
    ActiveMilestoneScanEntry :=
  match d with
  | .raw _ => ⟨p, none, none, true⟩
  | .fm fields _ =>
    let eid := pyStrip (lookupField fields "execplan_id")
    if !(is_execplan_id eid) then ⟨p, none, none, true⟩
    else
      let mid := pyStrip (lookupField fields "id")
      match parse_milestone_id mid with
      | none => ⟨p, some eid, none, true⟩
      | some (pid, seq) =>
        if pid != eid then ⟨p, some eid, some seq, true⟩
        else ⟨p, some eid, some seq, false⟩

/-- `scan_active_milestones_for_archive`: rows for this plan versus
blocking rows (parse errors and rows owned by a different ID).  The
source sorts both lists; no claim depends on the order. -/
def scan_active_milestones_for_archive (fs : FS) (planRoot : PathParts)
    (id : String) : List ActiveMilestoneScanEntry × List ActiveMilestoneScanEntry :=
  let activeRoot := planRoot ++ [MILESTONES_DIR, ACTIVE_DIR]
  if !(existsPath fs activeRoot) then ([], [])
  else
    let entries := fs.files.filterMap (fun f =>
      if strictlyInside activeRoot f.1 && matchesMdGlob (lastComponent f.1) then
        some (scan_active_milestone_front_matter f.1 f.2)
      else none)
    (entries.filter (fun e => !e.parse_error && e.execplan_id == some id),
     entries.filter (fun e => e.parse_error || e.execplan_id != some id))

/-- `_iter_foreign_milestone_files_within_plan_root`. -/
def iter_foreign_milestone_files (fs : FS) (planRoot : PathParts)
    (id : String) : List PathParts :=
  fs.files.filterMap (fun f =>
    if strictlyInside planRoot f.1 && matchesMdGlob (lastComponent f.1) then
      match extract_milestone_execplan_id f.1 f.2 with
      | none => none
      | some cid =>
        if cid == id then none
        else
          let rel := f.1.drop planRoot.length
          if rel.length ≥ 3 && rel.getD 0 "" == MILESTONES_DIR &&
              (rel.getD 1 "" == ACTIVE_DIR || rel.getD 1 "" == ARCHIVE_DIR) then
            some f.1
          else if rel.length ≥ 2 &&
              (rel.getD 0 "" == ACTIVE_DIR || rel.getD 0 "" == ARCHIVE_DIR) then
            some f.1
          else none
    else none)

/-- `_iter_unexpected_entries_in_legacy_milestones_root`. -/
def iter_unexpected_legacy_entries (fs : FS) (msRoot : PathParts)
    (id : String) : List PathParts :=
  fs.files.filterMap (fun f =>
    if strictlyInside msRoot f.1 && matchesMdGlob (lastComponent f.1) then
      let rel := f.1.drop msRoot.length
      let allowed := rel.length ≥ 2 &&
        (rel.getD 0 "" == ACTIVE_DIR || rel.getD 0 "" == ARCHIVE_DIR) &&
        extract_milestone_execplan_id f.1 f.2 == some id
      if allowed then none else some f.1
    else none)

/-- `_mark_execplan_archived` at document level: fails (`none`) when
the document has no usable front matter; otherwise sets
`status: archived` and `updated` in place.  The atomic write itself is
a separate filesystem step. -/
def mark_execplan_archived (d : Doc) (updatedDashed : String) : Option Doc :=
  match d with
  | .raw _ => none
  | .fm fields body =>
    some (.fm (setField (setField fields "status" "archived") "updated"
      updatedDashed) body)

/-- `f"{execplan_id}/MS{sequence:03d}"`. -/
def milestone_id (id : String) (seq : Nat) : String :=
  id ++ "/MS" ++ pad3 seq

/-- Modelled from the spec: the packaged `MILESTONE_FILE_TEMPLATE.md`
data file is not under `src/`; per §3 a MilestoneDocument carries
`{id, execplan_id, title, domain, owner, created, updated, status}`
front matter, created documents starting at `status: planned`. -/
def renderMilestoneTemplate (milestoneId execplanId title domain owner
    created : String) : Doc :=
  Doc.fm
    [("id", milestoneId), ("execplan_id", execplanId), ("title", title),
     ("status", "planned"), ("domain", domain), ("owner", owner),
     ("created", created), ("updated", created)] ""

inductive MsErr
  | invalidId | dirMissing | notFound | multiMatch | classifyFail
  | planUnreadable | archivedPath | archivedStatus | titleCtl | titleEmpty
  | slugEmpty | badDate | ownerCtl | ownerEmpty | badDomain | invalidActive
  | seqOverflow | raceExhausted | seqRange | msNotFound | msMultiMatch
  | destExists
deriving Repr, DecidableEq

/-- `_resolve_parent_execplan`: unique non-milestone `EP-*.md` file
whose filename identity equals `id`, its plan root, and its parsed
front matter (`raw` plan documents make `_extract_front_matter`
raise). -/
def resolve_parent_execplan (fs : FS) (dir : PathParts) (id : String) :
    Except MsErr (PathParts × PathParts × List (String × String)) :=
  if !(is_execplan_id id) then .error .invalidId
  else if !(existsPath fs dir) then .error .dirMissing
  else
    match (iter_execplan_files fs dir).filter
        (fun p => extract_execplan_id_from_filename (lastComponent p) == some id) with
    | [] => .error .notFound
    | [m] =>
      match get_execplan_plan_root (m.drop dir.length) with
      | none => .error .classifyFail
      | some rel =>
        match getFile fs m with
        | some (.fm fields _) => .ok (m, dir ++ rel, fields)
        | _ => .error .planUnreadable
    | _ => .error .multiMatch

/-- `_uses_legacy_shared_active_root`. -/
def uses_legacy_shared_active_root (planPath planRoot dir : PathParts) : Bool :=
  planRoot == dir ++ [ACTIVE_DIR] && planPath.dropLast == planRoot

/-- The bounded create-exclusive retry loop of
`create_execplan_milestone` (`_MILESTONE_CREATE_RETRIES = 32`). -/
def create_milestone_loop (fs : FS) (planRoot activeDir : PathParts)
    (id slug title domain owner created : String) (legacyName : Bool) :
    Nat → Except MsErr (String × Nat × PathParts) × FS
  | 0 => (.error .raceExhausted, fs)
  | fuel + 1 =>
    let seq := next_milestone_sequence fs planRoot id
    if seq > 999 then (.error .seqOverflow, fs)
    else
      let mid := milestone_id id seq
      let filename :=
        if legacyName then id ++ "_MS" ++ pad3 seq ++ "_" ++ slug ++ ".md"
        else "MS" ++ pad3 seq ++ "_" ++ slug ++ ".md"
      let msPath := activeDir ++ [filename]
      match createExclusive fs msPath
          (renderMilestoneTemplate mid id title domain owner created) with
      | none =>
        create_milestone_loop fs planRoot activeDir id slug title domain owner
          created legacyName fuel
      | some fs2 => (.ok (mid, seq, msPath), fs2)

/-- `create_execplan_milestone` (`milestones.py` lines 489-586), under
the per-ID mutation lock. -/
def create_execplan_milestone (fs : FS) (dir : PathParts) (id title : String)
    (slug owner domain : Option String) (day : String) :
    Except MsErr (String × Nat × PathParts) × FS :=
  let t := pyStrip title
  if containsCtl t then (.error .titleCtl, fs)
  else if t == "" then (.error .titleEmpty, fs)
  else
    let msSlug := slugify (match slug with | some s2 => s2 | none => t)
    if msSlug == "" then (.error .slugEmpty, fs)
    else
      match validate_date_yyyymmdd day with
      | none => (.error .badDate, fs)
      | some _ =>
        match resolve_parent_execplan fs dir id with
        | .error e => (.error e, fs)
        | .ok (planPath, planRoot, fields) =>
          if is_execplan_archive_path (planPath.drop dir.length) then
            (.error .archivedPath, fs)
          else if String.mk ((pyStrip (lookupField fields "status")).data.map
              Char.toLower) == "archived" then
            (.error .archivedStatus, fs)
          else
            let ow := pyStrip
              (match owner with
               | some o => o
               | none =>
                 if pyStrip (lookupField fields "owner") != "" then
                   pyStrip (lookupField fields "owner")
                 else "@codex")
            if containsCtl ow then (.error .ownerCtl, fs)
            else if ow == "" then (.error .ownerEmpty, fs)
            else
              let dm := pyStrip
                (match domain with
                 | some d2 => d2
                 | none =>
                   if pyStrip (lookupField fields "domain") != "" then
                     pyStrip (lookupField fields "domain")
                   else "backend")
              if !(ALLOWED_DOMAINS.contains dm) then (.error .badDomain, fs)
              else
                let activeDir := planRoot ++ [MILESTONES_DIR, ACTIVE_DIR]
                let fs1 := mkdirParents fs activeDir
                if !(list_invalid_active_milestone_files fs1 planRoot).isEmpty then
                  (.error .invalidActive, fs1)
                else
                  let legacyName :=
                    uses_legacy_shared_active_root planPath planRoot dir
                  create_milestone_loop fs1 planRoot activeDir id msSlug t dm ow
                    (dateDashed day) legacyName 32

/-- `archive_execplan_milestone` (`milestones.py` lines 636-697), under
the per-ID mutation lock: locate the unique active file for the
sequence by ownership, then move it flat into `milestones/archive`. -/
def archive_execplan_milestone (fs : FS) (dir : PathParts) (id : String)
    (seq : Nat) (day : Option String) : Except MsErr PathParts × FS :=
  if seq < 1 || seq > 999 then (.error .seqRange, fs)
  else
    match resolve_parent_execplan fs dir id with
    | .error e => (.error e, fs)
    | .ok (_, planRoot, _) =>
      let activeDir := planRoot ++ [MILESTONES_DIR, ACTIVE_DIR]
      let candidates := fs.files.filterMap (fun f =>
        if f.1.dropLast == activeDir && matchesMdGlob (lastComponent f.1) then
          match parse_milestone_filename (lastComponent f.1) with
          | some (_, s2, _) =>
            if s2 == seq && is_milestone_owned_by_execplan f.1 f.2 id then
              some f.1
            else none
          | none => none
        else none)
      match candidates with
      | [] => (.error .msNotFound, fs)
      | [src] =>
        match day with
        | some d2 =>
          match validate_date_yyyymmdd d2 with
          | none => (.error .badDate, fs)
          | some _ =>
            let archiveDir := planRoot ++ [MILESTONES_DIR, ARCHIVE_DIR]
            let fs1 := mkdirParents fs archiveDir
            let dst := archiveDir ++ [lastComponent src]
            if existsPath fs1 dst then (.error .destExists, fs1)
            else (.ok dst, moveFile fs1 src dst)
        | none =>
          let archiveDir := planRoot ++ [MILESTONES_DIR, ARCHIVE_DIR]
          let fs1 := mkdirParents fs archiveDir
          let dst := archiveDir ++ [lastComponent src]
          if existsPath fs1 dst then (.error .destExists, fs1)
          else (.ok dst, moveFile fs1 src dst)
      | _ => (.error .msMultiMatch, fs)

/-! ## Document store: `archive_execplan` (`creator.py` lines 379-560)

The injectable failures model I/O errors at each physical step of the
two-phase move (`os.replace` of the plan file, `os.replace` of the
legacy milestone subtree, the `_mark_execplan_archived` rewrite, and
each rollback `os.replace`); a mark step also fails naturally when the
moved document has no usable front matter.  The run records every
completed forward move and every executed undo move so that the
rollback order is part of the observable result. -/

inductive ArchiveErr
  | invalidId | dirMissing | notFound | multiMatch | alreadyArchived
  | classifyFail | multiPlanLegacy | multiPlanRoot | foreignMilestones
  | invalidActiveMilestone | activeMilestonesExist | badDate | destInsideSource
  | mixedLegacyMilestones | destExists | moveFail | markFail
deriving Repr, DecidableEq

/-- The fields of `ExecPlanArchiveResult`. -/
structure ArchiveResult where
  plan_id : String
  source_plan_path : PathParts
  archived_plan_path : PathParts
  source_plan_root : PathParts
  archived_plan_root : PathParts
deriving Repr, DecidableEq

inductive ArchiveOutcome
  | ok (res : ArchiveResult)
  | err (e : ArchiveErr)
  | fatalOrphan (moved : PathParts)
deriving Repr, DecidableEq

structure ArchiveRun where
  fs : FS
  outcome : ArchiveOutcome
  completedMoves : List (PathParts × PathParts)
  undoneMoves : List (PathParts × PathParts)
deriving Repr, DecidableEq

structure ArchiveInject where
  failMovePlan : Bool
  failMoveMs : Bool
  failMark : Bool
  failRollbackMs : Bool
  failRollbackPlan : Bool
deriving Repr, DecidableEq

def noInject : ArchiveInject := ⟨false, false, false, false, false⟩

/-- `_resolve_execplan_by_id`. -/
def resolve_execplan_by_id (fs : FS) (dir : PathParts) (id : String) :
    Except ArchiveErr PathParts :=
  if !(is_execplan_id id) then .error .invalidId
  else if !(existsPath fs dir) then .error .dirMissing
  else
    match (iter_execplan_files fs dir).filter
        (fun p => extract_execplan_id_from_filename (lastComponent p) == some id) with
    | [] => .error .notFound
    | [m] => .ok m
    | _ => .error .multiMatch

/-- The archive destination parent `<dir>/archive/YYYY/MM/DD`. -/
def archParent (dir : PathParts) (day : String) : PathParts :=
  dir ++ [EXECPLAN_ARCHIVE_DIR, dateYear day, dateMonth day, dateDay day]

/-- The archived plan root `<dir>/archive/YYYY/MM/DD/<id>_<name>`. -/
def archRoot (dir : PathParts) (day id : String) (srcRoot : PathParts) :
    PathParts :=
  archParent dir day ++ [id ++ "_" ++ lastComponent srcRoot]

/-- The check phase of `archive_execplan` (`creator.py` lines 379-460):
resolution, the already-archived conflict, layout classification, the
single-plan and foreign-milestone guards, the active-milestone scan,
date validation, and the destination-inside-source guard.  On success
it returns `(src, srcRoot, legacy)`; no filesystem write happens in
this phase. -/
def archive_checks (fs : FS) (dir : PathParts) (id day : String) :
    Except ArchiveErr (PathParts × PathParts × Bool) :=
  match resolve_execplan_by_id fs dir id with
  | .error e => .error e
  | .ok src =>
    if is_execplan_archive_path (src.drop dir.length) then
      .error .alreadyArchived
    else
      match get_execplan_plan_root (src.drop dir.length) with
      | none => .error .classifyFail
      | some srcRootRel =>
        if !(if dir ++ srcRootRel == dir ++ [EXECPLAN_ACTIVE_DIR] &&
              src.dropLast == dir ++ srcRootRel then
            ((fs.files.map (fun f => f.1)).filter (fun p =>
              p.dropLast == dir ++ srcRootRel &&
                matchesEpGlob (lastComponent p) &&
                !(is_execplan_milestone_path (p.drop dir.length)))) == [src]
          else
            iter_execplan_files_within fs (dir ++ srcRootRel) dir == [src] &&
              (iter_foreign_milestone_files fs (dir ++ srcRootRel)
                id).isEmpty) then
          .error (if dir ++ srcRootRel == dir ++ [EXECPLAN_ACTIVE_DIR] &&
              src.dropLast == dir ++ srcRootRel then .multiPlanLegacy
            else
              (if iter_execplan_files_within fs (dir ++ srcRootRel) dir ==
                  [src] then .foreignMilestones else .multiPlanRoot))
        else if !(scan_active_milestones_for_archive fs (dir ++ srcRootRel)
            id).2.isEmpty then
          .error .invalidActiveMilestone
        else if !(scan_active_milestones_for_archive fs (dir ++ srcRootRel)
            id).1.isEmpty then
          .error .activeMilestonesExist
        else
          match validate_date_yyyymmdd day with
          | none => .error .badDate
          | some _ =>
            if archRoot dir day id (dir ++ srcRootRel) == dir ++ srcRootRel ||
                leadsTo (dir ++ srcRootRel)
                  (archRoot dir day id (dir ++ srcRootRel)) then
              .error .destInsideSource
            else
              .ok (src, dir ++ srcRootRel,
                dir ++ srcRootRel == dir ++ [EXECPLAN_ACTIVE_DIR] &&
                  src.dropLast == dir ++ srcRootRel)

/-- `_mark_execplan_archived` applied to the moved plan file (the
`failMark` injection models the rewrite raising before completion). -/
def archMark (fs : FS) (inj : ArchiveInject) (app : PathParts) (day : String) :
    Option Doc :=
  if inj.failMark then none
  else (getFile fs app).bind (fun d => mark_execplan_archived d (dateDashed day))

/-- The legacy (shared `active/` root) move phase after the destination
checks: `fs2` already holds the created archive directories; `app`,
`msRoot`, `amr` and `ar` are the moved plan file, the legacy milestones
root, its archived location, and the archived plan root. -/
def legacy_moves (fs2 : FS) (inj : ArchiveInject) (id day : String)
    (src srcRoot app msRoot amr ar : PathParts) (hasMs : Bool) : ArchiveRun :=
  if inj.failMovePlan then
    ⟨rmdirEntry fs2 ar, .err .moveFail, [], []⟩
  else if hasMs then
    if inj.failMoveMs then
      if inj.failRollbackPlan then
        ⟨moveFile fs2 src app, .fatalOrphan app, [(src, app)], []⟩
      else
        ⟨rmdirEntry (moveFile (moveFile fs2 src app) app src) ar,
          .err .moveFail, [(src, app)], [(app, src)]⟩
    else
      match archMark (moveTree (moveFile fs2 src app) msRoot amr) inj app
          day with
      | some d2 =>
        ⟨writeFile (moveTree (moveFile fs2 src app) msRoot amr) app d2,
          .ok ⟨id, src, app, srcRoot, ar⟩, [(src, app), (msRoot, amr)], []⟩
      | none =>
        if inj.failRollbackMs then
          ⟨moveTree (moveFile fs2 src app) msRoot amr, .fatalOrphan amr,
            [(src, app), (msRoot, amr)], []⟩
        else if inj.failRollbackPlan then
          ⟨moveTree (moveTree (moveFile fs2 src app) msRoot amr) amr msRoot,
            .fatalOrphan app, [(src, app), (msRoot, amr)], [(amr, msRoot)]⟩
        else
          ⟨rmdirEntry (moveFile (moveTree (moveTree (moveFile fs2 src app)
              msRoot amr) amr msRoot) app src) ar,
            .err .markFail, [(src, app), (msRoot, amr)],
            [(amr, msRoot), (app, src)]⟩
  else
    match archMark (moveFile fs2 src app) inj app day with
    | some d2 =>
      ⟨writeFile (moveFile fs2 src app) app d2,
        .ok ⟨id, src, app, srcRoot, ar⟩, [(src, app)], []⟩
    | none =>
      if inj.failRollbackPlan then
        ⟨moveFile fs2 src app, .fatalOrphan app, [(src, app)], []⟩
      else
        ⟨rmdirEntry (moveFile (moveFile fs2 src app) app src) ar,
          .err .markFail, [(src, app)], [(app, src)]⟩

/-- The current-layout move phase after the destination checks: `fs1`
already holds the created archive parent; the whole plan root moves as
one subtree. -/
def modern_moves (fs1 : FS) (inj : ArchiveInject) (id day : String)
    (src srcRoot ar : PathParts) : ArchiveRun :=
  if inj.failMovePlan then ⟨fs1, .err .moveFail, [], []⟩
  else
    match archMark (moveTree fs1 srcRoot ar) inj
        (ar ++ src.drop srcRoot.length) day with
    | some d2 =>
      ⟨writeFile (moveTree fs1 srcRoot ar) (ar ++ src.drop srcRoot.length) d2,
        .ok ⟨id, src, ar ++ src.drop srcRoot.length, srcRoot, ar⟩,
        [(srcRoot, ar)], []⟩
    | none =>
      if inj.failRollbackPlan then
        ⟨moveTree fs1 srcRoot ar, .fatalOrphan ar, [(srcRoot, ar)], []⟩
      else
        ⟨moveTree (moveTree fs1 srcRoot ar) ar srcRoot, .err .markFail,
          [(srcRoot, ar)], [(ar, srcRoot)]⟩

/-- `archive_execplan`, without the optional registry rebuild (which
runs only after the lock is released, on the success path, and is
modelled separately): the check phase, the legacy mixed-content and
destination-exists guards, then the two-phase move with rollback. -/
def archive_execplan (fs : FS) (dir : PathParts) (id day : String)
    (inj : ArchiveInject) : ArchiveRun :=
  match archive_checks fs dir id day with
  | .error e => ⟨fs, .err e, [], []⟩
  | .ok (src, srcRoot, legacy) =>
    if legacy then
      if existsPath fs (srcRoot ++ [MILESTONES_DIR]) &&
          !(iter_unexpected_legacy_entries fs (srcRoot ++ [MILESTONES_DIR])
            id).isEmpty then
        ⟨fs, .err .mixedLegacyMilestones, [], []⟩
      else if existsPath (mkdirParents fs (archParent dir day))
          (archRoot dir day id srcRoot) then
        ⟨mkdirParents fs (archParent dir day), .err .destExists, [], []⟩
      else
        legacy_moves
          (mkdirParents (mkdirParents fs (archParent dir day))
            (archRoot dir day id srcRoot))
          inj id day src srcRoot
          (archRoot dir day id srcRoot ++ [lastComponent src])
          (srcRoot ++ [MILESTONES_DIR])
          (archRoot dir day id srcRoot ++ [MILESTONES_DIR])
          (archRoot dir day id srcRoot)
          (existsPath fs (srcRoot ++ [MILESTONES_DIR]))
    else
      if existsPath (mkdirParents fs (archParent dir day))
          (archRoot dir day id srcRoot) then
        ⟨mkdirParents fs (archParent dir day), .err .destExists, [], []⟩
      else
        modern_moves (mkdirParents fs (archParent dir day)) inj id day src
          srcRoot (archRoot dir day id srcRoot)

/-! ## Registry builder (`registry.py`)

`collect_execplan_registry` performs the full per-file validation pass
and returns a registry value plus an issue list; the write policy of
`build_execplan_registry` (lines 696-724) depends only on the issue
severities, so the collect result is universally quantified in the
claims below.  The duplicate-ID detection fold of `collect` (lines
497-510) is translated so the duplicate example can be settled. -/

inductive Severity
  | warning | error
deriving Repr, DecidableEq

structure RegistryIssue where
  severity : Severity
  message : String
  path : Option String := none
deriving Repr, DecidableEq

/-- `RegistryBuildResult.error_count`. -/
def error_count (issues : List RegistryIssue) : Nat :=
  (issues.filter (fun i => i.severity == Severity.error)).length

/-- `RegistryBuildResult.warning_count`. -/
def warning_count (issues : List RegistryIssue) : Nat :=
  (issues.filter (fun i => i.severity == Severity.warning)).length

/-- The duplicate-ID detection fold of `collect_execplan_registry`:
walk the parsed `(id, path)` pairs, emitting an error Issue whenever an
ID was already seen. -/
def duplicate_id_issues_go (seen : List String) :
    List (String × String) → List RegistryIssue
  | [] => []
  | (pid, _) :: rest =>
    (if seen.contains pid then
      [⟨Severity.error, "Duplicate ExecPlan id " ++ pid, none⟩]
     else []) ++ duplicate_id_issues_go (pid :: seen) rest

def duplicate_id_issues (plans : List (String × String)) : List RegistryIssue :=
  duplicate_id_issues_go [] plans

/-- A flat JSON value as the registry actually contains them. -/
inductive JLeaf
  | jstr (s : String)
  | jbool (b : Bool)
  | jnull
  | jnum (n : Nat)
  | jlist (xs : List String)
  | jmap (kvs : List (String × String))
deriving Repr, DecidableEq

/-- The registry document `{schema_version, plans, generated_at?}`. -/
structure RegistryDoc where
  schema_version : Nat
  plans : List (List (String × JLeaf))
  generated_at : Option String
deriving Repr, DecidableEq

def insertSortedKey (kv : String × JLeaf) :
    List (String × JLeaf) → List (String × JLeaf)
  | [] => [kv]
  | x :: rest =>
    if kv.1 ≤ x.1 then kv :: x :: rest else x :: insertSortedKey kv rest

/-- Key-sorting pass of `json.dumps(..., sort_keys=True)` (insertion
sort). -/
def sortByKey (l : List (String × JLeaf)) : List (String × JLeaf) :=
  l.foldr insertSortedKey []

/-- JSON rendering of leaves; the byte-exact escaping of the external
`json` module is abstracted as plain quoting (no claim depends on the
escaped bytes). -/
def renderLeaf : JLeaf → String
  | .jstr s => "\"" ++ s ++ "\""
  | .jbool b => if b then "true" else "false"
  | .jnull => "null"
  | .jnum n => toString n
  | .jlist xs => "[" ++ String.intercalate ", "
      (xs.map (fun s => "\"" ++ s ++ "\"")) ++ "]"
  | .jmap kvs => "\x7b" ++ String.intercalate ", "
      (kvs.map (fun kv => "\"" ++ kv.1 ++ "\": \"" ++ kv.2 ++ "\"")) ++ "\x7d"

def renderPlanDict (kvs : List (String × JLeaf)) : String :=
  "\x7b" ++ String.intercalate ", "
    ((sortByKey kvs).map (fun kv => "\"" ++ kv.1 ++ "\": " ++ renderLeaf kv.2)) ++
    "\x7d"

/-- `json.dumps(registry, indent=2, sort_keys=True)` at the value
level: top-level keys in sorted order (`generated_at` < `plans` <
`schema_version`), every plan dictionary with sorted keys.  Indentation
whitespace is abstracted. -/
def renderRegistryDoc (reg : RegistryDoc) : String :=
  "\x7b" ++
    (match reg.generated_at with
     | some ts => "\"generated_at\": \"" ++ ts ++ "\", "
     | none => "") ++
    "\"plans\": [" ++
    String.intercalate ", " (reg.plans.map renderPlanDict) ++
    "], \"schema_version\": " ++ toString reg.schema_version ++ "\x7d"

inductive WriteOp
  | mkstemp (dir : PathParts)
  | writeTemp (content : String)
  | fsync
  | rename (src dst : PathParts)
deriving Repr, DecidableEq

/-- `write_registry_atomic`: ensure the parent directory, write the
rendered JSON plus trailing newline to a temp file in that directory,
fsync, and `os.replace` the temp file onto the output path.  The net
filesystem effect is the atomic overwrite of the output path; the op
trace records the mechanism. -/
def write_registry_atomic (fs : FS) (reg : RegistryDoc) (outPath : PathParts) :
    FS × List WriteOp :=
  let parent := outPath.dropLast
  let fs0 := mkdirParents fs parent
  let content := renderRegistryDoc reg ++ "\n"
  let tmp := parent ++ [".registry-tmp.json"]
  (writeFile fs0 outPath (Doc.raw content),
   [.mkstemp parent, .writeTemp content, .fsync, .rename tmp outPath])

structure BuildResult where
  wrote_registry : Bool
  output_path : Option PathParts
deriving Repr, DecidableEq

/-- `build_execplan_registry` (lines 696-724), downstream of the
collect pass: refuse on any error, refuse on warnings when
`fail_on_warn`, otherwise write atomically. -/
def build_execplan_registry (fs : FS) (issues : List RegistryIssue)
    (reg : RegistryDoc) (failOnWarn : Bool) (outPath : PathParts) :
    BuildResult × FS × List WriteOp :=
  if error_count issues > 0 then (⟨false, none⟩, fs, [])
  else if failOnWarn && warning_count issues > 0 then (⟨false, none⟩, fs, [])
  else
    let (fs2, ops) := write_registry_atomic fs reg outPath
    (⟨true, some outPath⟩, fs2, ops)

/-! # Claim theorems -/

/-- C9: for every path under an execplans root, if
`is_execplan_milestone_path` returns `True` then
`is_execplan_archive_path` returns `False` for the same path, so no
path is classified both as a milestone artifact and as an archived
plan file. -/
theorem milestone_path_never_archive_path (parts : PathParts)
    (h : is_execplan_milestone_path parts = true) :
    is_execplan_archive_path parts = false := by
  unfold is_execplan_archive_path
  simp [h]

theorem milestone_path_never_archive_path_witness :
    is_execplan_milestone_path
        ["active", "s", "milestones", "active", "MS001_x.md"] = true ∧
      is_execplan_archive_path
        ["active", "s", "milestones", "active", "MS001_x.md"] = false :=
  ⟨by decide, milestone_path_never_archive_path _ (by decide)⟩

/-- C4 counterexample: on the path `p/archive/f.md` the code classifies
the plan root as the archived `p/archive` (legacy archived layout),
while the claim's priority order — legacy bare before legacy archived —
classifies it as the non-archived root `p`, so the claimed order does
not describe the classifier. -/
theorem classifier_claim_order_counterexample :
    classify_execplan_layout ["p", "archive", "f.md"] =
        some (["p", "archive"], true) ∧
      firstMatch claimOrderTable ["p", "archive", "f.md"] =
        some (["p"], false) ∧
      classify_execplan_layout ["p", "archive", "f.md"] ≠
        firstMatch claimOrderTable ["p", "archive", "f.md"] :=
  ⟨by decide, by decide, by decide⟩

/-- C4 amended: the Path Classifier matches layout patterns in the
priority order current active (`active/<slug>/…`), then legacy
shared-active-root (any other `active/…` path), then current archived
(`archive/YYYY/MM/DD/<slug>/…`), then legacy archived
(`<slug>/archive/…` with `<slug> ≠ active`), then legacy bare
(`<slug>/…` with `<slug> ≠ active`); `get_execplan_plan_root` raises a
classification error exactly when no pattern matches. -/
theorem classifier_priority_order (parts : PathParts) :
    classify_execplan_layout parts = firstMatch codeOrderTable parts ∧
      (get_execplan_plan_root parts = none ↔
        firstMatch codeOrderTable parts = none) := by
  refine ⟨rfl, ?_⟩
  show (classify_execplan_layout parts).map (fun x => x.1) = none ↔ _
  cases h : classify_execplan_layout parts <;>
    simp [show firstMatch codeOrderTable parts = classify_execplan_layout parts
      from rfl, h]

/-- C10: slug derivation is idempotent — feeding an already-derived
slug back through `_slugify` never changes it. -/
theorem slugify_idempotent (s : String) : slugify (slugify s) = slugify s :=
  congrArg String.mk (slugifyChars_idem s.data)

/-- C5 counterexample: on input `a.b` the code produces `a-b` (the run
of invalid characters is replaced by a hyphen), while the claim's
pipeline — which removes characters outside `[a-z0-9_-]` — produces
`ab`. -/
theorem slugify_strip_counterexample :
    slugify "a.b" = "a-b" ∧ claimSlug "a.b" = "ab" ∧
      slugify "a.b" ≠ claimSlug "a.b" :=
  ⟨by decide, by decide, by decide⟩

theorem slugifyChars_eq_specSlugChars (l : List Char) :
    slugifyChars l = specSlugChars l := by
  unfold slugifyChars specSlugChars
  by_cases hemp : ((stripEnds isPyWs l).map Char.toLower).isEmpty = true
  · rw [if_pos hemp]
    rw [List.isEmpty_iff.1 hemp]
    rfl
  · rw [if_neg hemp]
    simp only [collapseRuns_eq_replaceRuns]

theorem create_validate_ok_slug_ne (title : String) (slugArg : Option String)
    (owner kind domain day : String)
    (v : String × String × String × String × String)
    (h : create_validate title slugArg owner kind domain day = .ok v) :
    slugify (slugArg.getD (pyStrip title)) ≠ "" := by
  unfold create_validate at h
  repeat' split at h
  all_goals intro hz
  all_goals simp_all

/-- C5 amended: the slug used by `create_execplan` equals the result
of lower-casing, collapsing whitespace runs to a hyphen, replacing
runs of characters outside `[a-z0-9_-]` by a hyphen, collapsing
repeated hyphens, and stripping leading and trailing hyphens and
underscores; and an empty result causes a validation error with no
filesystem write of a plan file. -/
theorem slugify_replaces_runs_and_empty_is_error :
    (∀ s, slugify s = specSlug s) ∧
      (∀ fs dir title slugArg owner kind domain day fs2,
        create_execplan fs dir title slugArg owner kind domain day =
          (.error .slugEmpty, fs2) → fs2 = fs) ∧
      (∀ fs dir title slugArg owner kind domain day r fs2,
        slugify (slugArg.getD (pyStrip title)) = "" →
        create_execplan fs dir title slugArg owner kind domain day ≠
          (.ok r, fs2)) := by
  refine ⟨fun s => congrArg String.mk (slugifyChars_eq_specSlugChars s.data),
    ?_, ?_⟩
  · intro fs dir title slugArg owner kind domain day fs2 hrun
    unfold create_execplan at hrun
    cases hval : create_validate title slugArg owner kind domain day with
    | error e =>
      rw [hval] at hrun
      exact (congrArg Prod.snd hrun).symm
    | ok v =>
      obtain ⟨t, k, dm, ow, chosen⟩ := v
      rw [hval] at hrun
      dsimp only [] at hrun
      repeat' split at hrun
      all_goals exact absurd (congrArg Prod.fst hrun) (by simp)
  · intro fs dir title slugArg owner kind domain day r fs2 hslug hrun
    unfold create_execplan at hrun
    cases hval : create_validate title slugArg owner kind domain day with
    | error e =>
      rw [hval] at hrun
      exact absurd (congrArg Prod.fst hrun) (by simp)
    | ok v =>
      exact absurd hslug (create_validate_ok_slug_ne _ _ _ _ _ _ _ hval)

theorem slugify_replaces_runs_and_empty_is_error_witness :
    slugify "A b" = specSlug "A b" ∧
      (⟨[], []⟩ : FS) = (⟨[], []⟩ : FS) ∧
      create_execplan ⟨[], []⟩ ["ep"] "...." none "@codex" "feature" "backend"
          "20260207" ≠
        (.ok ⟨"x", [], "y"⟩, (⟨[], []⟩ : FS)) :=
  ⟨slugify_replaces_runs_and_empty_is_error.1 "A b",
   slugify_replaces_runs_and_empty_is_error.2.1 ⟨[], []⟩ ["ep"] "...." none
     "@codex" "feature" "backend" "20260207" ⟨[], []⟩ (by decide),
   slugify_replaces_runs_and_empty_is_error.2.2 ⟨[], []⟩ ["ep"] "...." none
     "@codex" "feature" "backend" "20260207" ⟨"x", [], "y"⟩ ⟨[], []⟩
     (by decide)⟩

/-! ## C2: milestone sequence allocation -/

def c2PlanDoc : Doc :=
  Doc.fm [("id", "EP-20260207-001"), ("status", "planned"),
    ("owner", "@codex"), ("domain", "backend")] ""

def c2fs0 : FS :=
  ⟨[(["ep", "active", "search", "EP-20260207-001_search.md"], c2PlanDoc)],
   [["ep"], ["ep", "active"], ["ep", "active", "search"]]⟩

def c2fs1 : FS :=
  (create_execplan_milestone c2fs0 ["ep"] "EP-20260207-001" "Prototype" none
    none none "20260210").2

def c2fs2 : FS :=
  (archive_execplan_milestone c2fs1 ["ep"] "EP-20260207-001" 1 none).2

def c2ArchivedPath : PathParts :=
  ["ep", "active", "search", "milestones", "archive", "MS001_prototype.md"]

/-- C2 counterexample: milestone `MS001` is allocated, archived, its
archived file is externally deleted, and the next allocation for the
same ExecPlan returns sequence 1 again — the sequence is reused, so
allocation is not strictly greater than every previously allocated
sequence number. -/
theorem milestone_sequence_reuse_counterexample :
    (create_execplan_milestone c2fs0 ["ep"] "EP-20260207-001" "Prototype" none
        none none "20260210").1 =
      .ok ("EP-20260207-001/MS001", 1,
        ["ep", "active", "search", "milestones", "active", "MS001_prototype.md"]) ∧
    (archive_execplan_milestone c2fs1 ["ep"] "EP-20260207-001" 1 none).1 =
      .ok c2ArchivedPath ∧
    next_milestone_sequence c2fs2 ["ep", "active", "search"]
      "EP-20260207-001" = 2 ∧
    (create_execplan_milestone (removeFile c2fs2 c2ArchivedPath) ["ep"]
        "EP-20260207-001" "Cutover" none none none "20260212").1 =
      .ok ("EP-20260207-001/MS001", 1,
        ["ep", "active", "search", "milestones", "active", "MS001_cutover.md"]) :=
  ⟨by decide, by decide, by decide, by decide⟩

theorem next_milestone_sequence_fold_ge (id : String)
    (l : List MilestoneFileScan) :
    ∀ init : Nat,
      init ≤ l.foldl (fun mx x =>
        if x.execplan_id == some id then max mx x.sequence
        else if x.isActive && x.parse_error then max mx x.sequence
        else mx) init ∧
      ∀ x ∈ l, (x.execplan_id = some id ∨
          (x.isActive = true ∧ x.parse_error = true)) →
        x.sequence ≤ l.foldl (fun mx x =>
          if x.execplan_id == some id then max mx x.sequence
          else if x.isActive && x.parse_error then max mx x.sequence
          else mx) init := by
  induction l with
  | nil => intro init; exact ⟨Nat.le_refl init, by intro x hx; simp at hx⟩
  | cons z rest ih =>
    intro init
    have hstep : ∀ a : Nat, a ≤
        (if z.execplan_id == some id then max a z.sequence
         else if z.isActive && z.parse_error then max a z.sequence
         else a) := by
      intro a
      by_cases h1 : (z.execplan_id == some id) = true
      · simp only [h1, if_true]
        exact Nat.le_max_left _ _
      · have h1f := eq_false_of_ne_true h1
        by_cases h2 : (z.isActive && z.parse_error) = true
        · simp only [h1f, Bool.false_eq_true, if_false, h2, if_true]
          exact Nat.le_max_left _ _
        · have h2f := eq_false_of_ne_true h2
          simp only [h1f, h2f, Bool.false_eq_true, if_false]
          exact Nat.le_refl _
    have hstepz : (z.execplan_id = some id ∨
        (z.isActive = true ∧ z.parse_error = true)) → ∀ a : Nat, z.sequence ≤
        (if z.execplan_id == some id then max a z.sequence
         else if z.isActive && z.parse_error then max a z.sequence
         else a) := by
      intro hc a
      rcases hc with hc | hc
      · have h1 : (z.execplan_id == some id) = true := by simp [hc]
        simp only [h1, if_true]
        exact Nat.le_max_right _ _
      · by_cases h1 : (z.execplan_id == some id) = true
        · simp only [h1, if_true]
          exact Nat.le_max_right _ _
        · have h1f := eq_false_of_ne_true h1
          have h2 : (z.isActive && z.parse_error) = true := by
            simp [hc.1, hc.2]
          simp only [h1f, Bool.false_eq_true, if_false, h2, if_true]
          exact Nat.le_max_right _ _
    constructor
    · simp only [List.foldl_cons]
      exact Nat.le_trans (hstep init) (ih _).1
    · intro x hx hcond
      simp only [List.foldl_cons]
      rcases List.mem_cons.1 hx with rfl | hmem
      · exact Nat.le_trans (hstepz hcond init) (ih _).1
      · exact (ih _).2 x hmem hcond

/-- C2 amended: the sequence allocated by `create_execplan_milestone`
is `1 +` the maximum sequence among milestone files currently on disk
under the plan root that are owned by the ExecPlan (active or
archived) or are malformed active files — strictly greater than every
such on-disk sequence, so numbers are never reused while the allocated
files remain on disk (including after archival); external deletion of
every file bearing a sequence allows that sequence to be reused. -/
theorem milestone_sequence_exceeds_on_disk (fs : FS) (planRoot : PathParts)
    (id : String) (x : MilestoneFileScan)
    (hx : x ∈ scan_plan_milestone_files fs planRoot)
    (hown : x.execplan_id = some id ∨
      (x.isActive = true ∧ x.parse_error = true)) :
    x.sequence < next_milestone_sequence fs planRoot id := by
  unfold next_milestone_sequence
  exact Nat.lt_succ_of_le
    ((next_milestone_sequence_fold_ge id (scan_plan_milestone_files fs planRoot)
      0).2 x hx hown)

def c2ScanRow : MilestoneFileScan :=
  ⟨["ep", "active", "search", "milestones", "archive", "MS001_prototype.md"],
    1, false, some "EP-20260207-001", false⟩

theorem milestone_sequence_exceeds_on_disk_witness :
    c2ScanRow ∈ scan_plan_milestone_files c2fs2 ["ep", "active", "search"] ∧
      c2ScanRow.sequence <
        next_milestone_sequence c2fs2 ["ep", "active", "search"]
          "EP-20260207-001" :=
  ⟨by decide,
   milestone_sequence_exceeds_on_disk c2fs2 ["ep", "active", "search"]
     "EP-20260207-001" c2ScanRow (by decide) (Or.inl (by decide))⟩

/-- C6: for every ExecPlan whose resolved file already lies under an
archive path, `archive_execplan` raises a conflict error — never a
no-op success — and leaves the filesystem, hence the archived file,
byte-identical to its state before the call. -/
theorem archive_already_archived_conflict (fs : FS) (dir : PathParts)
    (id day : String) (inj : ArchiveInject) (src : PathParts)
    (hres : resolve_execplan_by_id fs dir id = .ok src)
    (harch : is_execplan_archive_path (src.drop dir.length) = true) :
    archive_execplan fs dir id day inj =
      ⟨fs, .err .alreadyArchived, [], []⟩ := by
  have hchk : archive_checks fs dir id day = .error .alreadyArchived := by
    unfold archive_checks
    rw [hres]
    simp only [harch, if_true]
  unfold archive_execplan
  rw [hchk]

def c6path : PathParts :=
  ["ep", "archive", "2026", "02", "12", "EP-20260207-001_auth",
   "EP-20260207-001_auth.md"]

def c6fs : FS :=
  ⟨[(c6path, Doc.raw "payload")],
   [["ep"], ["ep", "archive"], ["ep", "archive", "2026"],
    ["ep", "archive", "2026", "02"], ["ep", "archive", "2026", "02", "12"],
    ["ep", "archive", "2026", "02", "12", "EP-20260207-001_auth"]]⟩

theorem archive_already_archived_conflict_witness :
    resolve_execplan_by_id c6fs ["ep"] "EP-20260207-001" = .ok c6path ∧
      archive_execplan c6fs ["ep"] "EP-20260207-001" "20260213" noInject =
        ⟨c6fs, .err .alreadyArchived, [], []⟩ :=
  ⟨by decide,
   archive_already_archived_conflict c6fs ["ep"] "EP-20260207-001" "20260213"
     noInject c6path (by decide) (by decide)⟩

/-! ## C7: registry write policy -/

theorem contains_eq_mem_decide (l : List String) (a : String) :
    l.contains a = decide (a ∈ l) := by
  simp [List.contains]

theorem duplicate_id_issues_go_severity (seen : List String) :
    ∀ plans, ∀ i ∈ duplicate_id_issues_go seen plans,
      i.severity = Severity.error := by
  intro plans
  induction plans generalizing seen with
  | nil => intro i hi; simp [duplicate_id_issues_go] at hi
  | cons z rest ih =>
    intro i hi
    obtain ⟨pid, path⟩ := z
    by_cases hc : (seen.contains pid) = true
    · simp only [duplicate_id_issues_go, hc, if_true] at hi
      rcases List.mem_append.1 hi with h1 | h1
      · rw [List.mem_singleton.1 h1]
      · exact ih (pid :: seen) i h1
    · simp only [duplicate_id_issues_go, eq_false_of_ne_true hc,
        Bool.false_eq_true, if_false, List.nil_append] at hi
      exact ih (pid :: seen) i hi

theorem duplicate_id_issues_go_nil_iff :
    ∀ (plans : List (String × String)) (seen : List String),
      duplicate_id_issues_go seen plans = [] ↔
        ((plans.map Prod.fst).Nodup ∧
          ∀ pid ∈ plans.map Prod.fst, pid ∉ seen) := by
  intro plans
  induction plans with
  | nil => intro seen; simp [duplicate_id_issues_go]
  | cons z rest ih =>
    intro seen
    obtain ⟨pid, path⟩ := z
    by_cases hc : pid ∈ seen
    · have hcb : seen.contains pid = true := by
        rw [contains_eq_mem_decide]
        exact decide_eq_true hc
      simp only [duplicate_id_issues_go, hcb, if_true]
      constructor
      · intro hcon
        exact absurd (congrArg List.length hcon) (by simp)
      · rintro ⟨_, hseen⟩
        exact absurd hc (hseen pid (by simp))
    · have hcb : seen.contains pid = false := by
        rw [contains_eq_mem_decide]
        exact decide_eq_false hc
      simp only [duplicate_id_issues_go, hcb, Bool.false_eq_true, if_false,
        List.nil_append, List.map_cons, List.nodup_cons]
      rw [ih (pid :: seen)]
      constructor
      · rintro ⟨hnodup, hseen⟩
        refine ⟨⟨?_, hnodup⟩, ?_⟩
        · intro hmem
          have := hseen pid hmem
          exact this (List.mem_cons_self pid seen)
        · intro q hq
          rcases List.mem_cons.1 hq with rfl | hq2
          · exact hc
          · intro hqin
            exact (hseen q hq2) (List.mem_cons_of_mem pid hqin)
      · rintro ⟨⟨hnotin, hnodup⟩, hseen⟩
        refine ⟨hnodup, ?_⟩
        intro q hq hqin
        rcases List.mem_cons.1 hqin with rfl | hq2
        · exact hnotin hq
        · exact (hseen q (List.mem_cons_of_mem pid hq)) hq2

theorem insertSortedKey_head (kv : String × JLeaf) (l : List (String × JLeaf)) :
    (insertSortedKey kv l).head? = some kv ∨
      (insertSortedKey kv l).head? = l.head? := by
  cases l with
  | nil => exact Or.inl rfl
  | cons x rest =>
    by_cases h : kv.1 ≤ x.1
    · exact Or.inl (by simp [insertSortedKey, h])
    · exact Or.inr (by simp [insertSortedKey, h])

theorem chain'_insertSortedKey (kv : String × JLeaf)
    (l : List (String × JLeaf))
    (h : List.Chain' (fun a b : String × JLeaf => a.1 ≤ b.1) l) :
    List.Chain' (fun a b : String × JLeaf => a.1 ≤ b.1)
      (insertSortedKey kv l) := by
  induction l with
  | nil => simp [insertSortedKey]
  | cons x rest ih =>
    by_cases hle : kv.1 ≤ x.1
    · simp only [insertSortedKey, hle, if_pos]
      exact List.chain'_cons'.2 ⟨fun y hy => by
        simp at hy
        rw [← hy]
        exact hle, h⟩
    · simp only [insertSortedKey, hle, if_neg, if_false]
      have htail := (List.chain'_cons'.1 h).2
      have hhead := (List.chain'_cons'.1 h).1
      refine List.chain'_cons'.2 ⟨?_, ih htail⟩
      intro y hy
      rcases insertSortedKey_head kv rest with hcase | hcase
      · rw [hcase] at hy
        simp at hy
        rw [← hy]
        exact le_of_not_le hle
      · rw [hcase] at hy
        exact hhead y hy

theorem sortByKey_sorted (kvs : List (String × JLeaf)) :
    List.Chain' (fun a b : String × JLeaf => a.1 ≤ b.1) (sortByKey kvs) := by
  induction kvs with
  | nil => simp [sortByKey]
  | cons x rest ih => exact chain'_insertSortedKey x _ ih

/-- C7: `build_execplan_registry` writes the registry file if and only
if the collected issues contain no error and — when `fail_on_warn` is
requested — no warning; when it refuses (for example on a duplicate
ExecPlan id, which always yields an error-severity Issue) it returns
`wrote_registry = False` and performs no write, leaving the filesystem
unchanged; when it writes, the JSON goes through temp-file, fsync, and
atomic rename, with object keys emitted in sorted order. -/
theorem registry_write_policy (fs : FS) (issues : List RegistryIssue)
    (reg : RegistryDoc) (failOnWarn : Bool) (outPath : PathParts) :
    ((build_execplan_registry fs issues reg failOnWarn outPath).1.wrote_registry
          = true ↔
        (error_count issues = 0 ∧
          (failOnWarn = true → warning_count issues = 0))) ∧
      ((build_execplan_registry fs issues reg failOnWarn outPath).1.wrote_registry
          = false →
        (build_execplan_registry fs issues reg failOnWarn outPath).2.1 = fs ∧
        (build_execplan_registry fs issues reg failOnWarn outPath).2.2 = [] ∧
        (build_execplan_registry fs issues reg failOnWarn outPath).1.output_path
          = none) ∧
      ((build_execplan_registry fs issues reg failOnWarn outPath).1.wrote_registry
          = true →
        (build_execplan_registry fs issues reg failOnWarn outPath).2.2 =
          [WriteOp.mkstemp outPath.dropLast,
           WriteOp.writeTemp (renderRegistryDoc reg ++ "\n"), WriteOp.fsync,
           WriteOp.rename (outPath.dropLast ++ [".registry-tmp.json"]) outPath] ∧
        (build_execplan_registry fs issues reg failOnWarn outPath).2.1 =
          writeFile (mkdirParents fs outPath.dropLast) outPath
            (Doc.raw (renderRegistryDoc reg ++ "\n"))) ∧
      (∀ plans : List (String × String),
        (duplicate_id_issues plans = [] ↔ (plans.map Prod.fst).Nodup) ∧
        ∀ i ∈ duplicate_id_issues plans, i.severity = Severity.error) ∧
      (∀ kvs, List.Chain' (fun a b : String × JLeaf => a.1 ≤ b.1)
        (sortByKey kvs)) := by
  refine ⟨?_, ?_, ?_, ?_, sortByKey_sorted⟩
  · unfold build_execplan_registry
    by_cases herr : error_count issues > 0
    · rw [if_pos herr]
      constructor
      · intro hcon
        exact absurd hcon (by simp)
      · rintro ⟨h1, -⟩
        exact absurd h1 (by omega)
    · rw [if_neg herr]
      by_cases hwarn : (failOnWarn && decide (warning_count issues > 0)) = true
      · rw [if_pos hwarn]
        simp only [Bool.and_eq_true, decide_eq_true_eq] at hwarn
        constructor
        · intro hcon
          exact absurd hcon (by simp)
        · rintro ⟨-, h2⟩
          exact absurd (h2 hwarn.1) (by omega)
      · rw [if_neg hwarn]
        simp only [Bool.and_eq_true, decide_eq_true_eq, not_and] at hwarn
        unfold write_registry_atomic
        constructor
        · intro _
          refine ⟨by omega, fun hf => ?_⟩
          have := hwarn hf
          omega
        · intro _
          rfl
  · intro hfalse
    unfold build_execplan_registry at hfalse ⊢
    by_cases herr : error_count issues > 0
    · simp [herr]
    · by_cases hwarn : (failOnWarn = true ∧ warning_count issues > 0)
      · rw [if_neg (by omega), if_pos (by simp [hwarn.1, hwarn.2])] at hfalse ⊢
        exact ⟨rfl, rfl, rfl⟩
      · rw [if_neg (by omega), if_neg (by
          simp only [Bool.and_eq_true, decide_eq_true_eq]
          exact fun hcon => hwarn hcon)] at hfalse
        unfold write_registry_atomic at hfalse
        simp at hfalse
  · intro htrue
    unfold build_execplan_registry at htrue ⊢
    by_cases herr : error_count issues > 0
    · simp [herr] at htrue
    · by_cases hwarn : (failOnWarn && decide (warning_count issues > 0)) = true
      · rw [if_neg (by omega), if_pos hwarn] at htrue
        simp at htrue
      · rw [if_neg (by omega), if_neg hwarn] at htrue ⊢
        unfold write_registry_atomic at htrue ⊢
        exact ⟨rfl, rfl⟩
  · intro plans
    constructor
    · rw [duplicate_id_issues, duplicate_id_issues_go_nil_iff plans []]
      simp
    · exact duplicate_id_issues_go_severity [] plans

def c7DupIssues : List RegistryIssue :=
  duplicate_id_issues [("EP-20260207-001", "a/EP-20260207-001_a.md"),
    ("EP-20260207-001", "b/EP-20260207-001_b.md")]

theorem registry_write_policy_witness :
    (build_execplan_registry ⟨[], []⟩ c7DupIssues ⟨1, [], none⟩ false
        ["registry.json"]).2.1 = (⟨[], []⟩ : FS) ∧
      (build_execplan_registry ⟨[], []⟩ c7DupIssues ⟨1, [], none⟩ false
        ["registry.json"]).2.2 = [] ∧
      (build_execplan_registry ⟨[], []⟩ c7DupIssues ⟨1, [], none⟩ false
        ["registry.json"]).1.output_path = none :=
  (registry_write_policy ⟨[], []⟩ c7DupIssues ⟨1, [], none⟩ false
    ["registry.json"]).2.1 (by decide)

/-! ## C3: plan identifier allocation -/

/-- The specification-side sequence bound: the maximum sequence among
existing plan files (excluding milestone paths) whose filename-encoded
date equals the requested day; zero when none exist. -/
def spec_max_sequence (fs : FS) (dir : PathParts) (day : String) : Nat :=
  ((iter_execplan_files fs dir).filterMap (fun p =>
    match parse_execplan_filename (lastComponent p) with
    | some (_, dt, seq) => if dt == day then some seq else none
    | none => none)).foldr max 0

theorem foldl_seq_max (day : String) (l : List PathParts) :
    ∀ a : Nat,
      l.foldl (fun mx p =>
        match parse_execplan_filename (lastComponent p) with
        | some (_, dt, seq) => if dt == day then max mx seq else mx
        | none => mx) a =
      max a ((l.filterMap (fun p =>
        match parse_execplan_filename (lastComponent p) with
        | some (_, dt, seq) => if dt == day then some seq else none
        | none => none)).foldr max 0) := by
  induction l with
  | nil => intro a; simp
  | cons p rest ih =>
    intro a
    simp only [List.foldl_cons, List.filterMap_cons]
    cases hp : parse_execplan_filename (lastComponent p) with
    | none => simp only [hp, ih]
    | some v =>
      obtain ⟨pid, dt, seq⟩ := v
      by_cases hdt : (dt == day) = true
      · simp only [hp, hdt, if_true, List.foldr_cons, ih, Nat.max_assoc]
      · simp only [hp, eq_false_of_ne_true hdt, Bool.false_eq_true, if_false,
          ih]

theorem next_sequence_eq_spec (fs : FS) (dir : PathParts) (day : String) :
    next_sequence_for_date fs dir day = spec_max_sequence fs dir day + 1 := by
  unfold next_sequence_for_date spec_max_sequence
  rw [foldl_seq_max]
  simp

/-- C3: for every valid `(title, day)` input, `create_execplan` returns
`plan_id = EP-<day>-<NNN>` where `NNN` is the zero-padded value
`1 + the maximum sequence` among existing plan files (excluding
milestone paths) whose filename-encoded date equals that day (1 when
none exist); a sequence value above 999 yields a validation error with
no plan file created. -/
theorem create_execplan_id_allocation (fs : FS) (dir : PathParts)
    (title : String) (slugArg : Option String) (owner kind domain day : String) :
    (∀ r fs2,
        create_execplan fs dir title slugArg owner kind domain day =
          (.ok r, fs2) →
        r.plan_id = "EP-" ++ day ++ "-" ++
            pad3 (spec_max_sequence fs dir day + 1) ∧
          spec_max_sequence fs dir day + 1 ≤ 999) ∧
      (∀ fs2,
        create_execplan fs dir title slugArg owner kind domain day =
          (.error .seqOverflow, fs2) →
        fs2.files = fs.files) := by
  have hspec : next_sequence_for_date (mkdirParents fs dir) dir day =
      spec_max_sequence fs dir day + 1 := by
    rw [next_sequence_eq_spec]
    rfl
  constructor
  · intro r fs2 hrun
    unfold create_execplan at hrun
    cases hval : create_validate title slugArg owner kind domain day with
    | error e =>
      rw [hval] at hrun
      exact absurd (congrArg Prod.fst hrun) (by simp)
    | ok v =>
      obtain ⟨t, k, dm, ow, chosen⟩ := v
      rw [hval] at hrun
      dsimp only [] at hrun
      rw [hspec] at hrun
      repeat' split at hrun
      all_goals
        first
          | (have hr := congrArg Prod.fst hrun
             simp only [Except.ok.injEq] at hr
             subst hr
             exact ⟨rfl, by omega⟩)
          | exact absurd (congrArg Prod.fst hrun) (by simp)
  · intro fs2 hrun
    unfold create_execplan at hrun
    cases hval : create_validate title slugArg owner kind domain day with
    | error e =>
      rw [hval] at hrun
      dsimp only [] at hrun
      rw [Prod.mk.injEq] at hrun
      rw [← hrun.2]
    | ok v =>
      obtain ⟨t, k, dm, ow, chosen⟩ := v
      rw [hval] at hrun
      dsimp only [] at hrun
      repeat' split at hrun
      all_goals
        first
          | (rw [Prod.mk.injEq] at hrun
             rw [← hrun.2]
             rfl)
          | exact absurd (congrArg Prod.fst hrun) (by simp)

theorem create_execplan_id_allocation_witness :
    ("EP-20260207-002" : String) = "EP-" ++ "20260207" ++ "-" ++
        pad3 (spec_max_sequence
          ⟨[(["ep", "active", "demo", "EP-20260207-001_demo.md"], Doc.raw "x")],
           [["ep"], ["ep", "active"], ["ep", "active", "demo"]]⟩
          ["ep"] "20260207" + 1) ∧
      spec_max_sequence
          ⟨[(["ep", "active", "demo", "EP-20260207-001_demo.md"], Doc.raw "x")],
           [["ep"], ["ep", "active"], ["ep", "active", "demo"]]⟩
          ["ep"] "20260207" + 1 ≤ 999 :=
  (create_execplan_id_allocation
    ⟨[(["ep", "active", "demo", "EP-20260207-001_demo.md"], Doc.raw "x")],
     [["ep"], ["ep", "active"], ["ep", "active", "demo"]]⟩
    ["ep"] "Second" none "@codex" "feature" "backend" "20260207").1
    ⟨"EP-20260207-002", ["ep", "active", "second", "EP-20260207-002_second.md"],
      "second"⟩
    (create_execplan
      ⟨[(["ep", "active", "demo", "EP-20260207-001_demo.md"], Doc.raw "x")],
       [["ep"], ["ep", "active"], ["ep", "active", "demo"]]⟩
      ["ep"] "Second" none "@codex" "feature" "backend" "20260207").2
    (by decide)

/-! ## Path algebra -/

theorem leadsTo_iff_append (a : PathParts) :
    ∀ b, leadsTo a b = true ↔ ∃ c, b = a ++ c := by
  induction a with
  | nil =>
    intro b
    simp [leadsTo]
  | cons x as ih =>
    intro b
    cases b with
    | nil =>
      simp [leadsTo]
    | cons y bs =>
      simp only [leadsTo, Bool.and_eq_true, beq_iff_eq, ih bs]
      constructor
      · rintro ⟨rfl, c, rfl⟩
        exact ⟨c, rfl⟩
      · rintro ⟨c, hc⟩
        rw [List.cons_append] at hc
        injection hc with h1 h2
        exact ⟨h1.symm, c, h2⟩

theorem leadsTo_append_self (a c : PathParts) : leadsTo a (a ++ c) = true :=
  (leadsTo_iff_append a (a ++ c)).2 ⟨c, rfl⟩

theorem leadsTo_refl (a : PathParts) : leadsTo a a = true := by
  have := leadsTo_append_self a []
  simpa using this

theorem leadsTo_trans {a b c : PathParts} (h1 : leadsTo a b = true)
    (h2 : leadsTo b c = true) : leadsTo a c = true := by
  obtain ⟨u, rfl⟩ := (leadsTo_iff_append a b).1 h1
  obtain ⟨v, rfl⟩ := (leadsTo_iff_append _ c).1 h2
  rw [List.append_assoc]
  exact leadsTo_append_self a (u ++ v)

theorem leadsTo_length {a b : PathParts} (h : leadsTo a b = true) :
    a.length ≤ b.length := by
  obtain ⟨c, rfl⟩ := (leadsTo_iff_append a b).1 h
  simp

theorem leadsTo_antisymm {a b : PathParts} (h : leadsTo a b = true)
    (hlen : b.length ≤ a.length) : a = b := by
  obtain ⟨c, rfl⟩ := (leadsTo_iff_append a b).1 h
  simp at hlen
  simp [hlen]

theorem leadsTo_append_drop {a b : PathParts} (h : leadsTo a b = true) :
    a ++ b.drop a.length = b := by
  obtain ⟨c, rfl⟩ := (leadsTo_iff_append a b).1 h
  rw [List.drop_left]

theorem append_drop_cancel (a c : PathParts) :
    (a ++ c).drop a.length = c := List.drop_left a c

theorem not_leadsTo_of_length_lt {a b : PathParts}
    (h : b.length < a.length) : leadsTo a b = false := by
  cases hl : leadsTo a b
  · rfl
  · exact absurd (leadsTo_length hl) (by omega)

theorem nil_not_mem_ancestors : ∀ p : PathParts, ([] : PathParts) ∉ ancestors p := by
  intro p
  induction p with
  | nil => simp [ancestors]
  | cons x rest ih =>
    simp only [ancestors, List.mem_cons, List.mem_map]
    intro h
    rcases h with h | ⟨b, -, hb⟩
    · exact absurd h (by simp)
    · exact absurd hb (by simp)

theorem mem_ancestors_iff (q : PathParts) :
    ∀ p, q ∈ ancestors p ↔ (q ≠ [] ∧ leadsTo q p = true) := by
  induction q with
  | nil =>
    intro p
    constructor
    · intro h
      exact absurd h (nil_not_mem_ancestors p)
    · rintro ⟨hne, -⟩
      exact absurd rfl hne
  | cons x qs ih =>
    intro p
    cases p with
    | nil =>
      simp [ancestors, leadsTo]
    | cons y rest =>
      simp only [ancestors, List.mem_cons, List.mem_map, leadsTo,
        Bool.and_eq_true, beq_iff_eq]
      constructor
      · rintro (h | ⟨b, hb, heq⟩)
        · injection h with h1 h2
          subst h1
          subst h2
          exact ⟨by simp, rfl, leadsTo_refl []⟩
        · injection heq with h1 h2
          subst h1
          subst h2
          have := (ih rest).1 hb
          exact ⟨by simp, rfl, this.2⟩
      · rintro ⟨-, rfl, hlead⟩
        cases hq : qs with
        | nil => exact Or.inl rfl
        | cons z zs =>
          right
          refine ⟨qs, ?_, by rw [hq]⟩
          rw [ih rest]
          exact ⟨by simp [hq], hlead⟩

theorem mkdirParents_files (fs : FS) (p : PathParts) :
    (mkdirParents fs p).files = fs.files := rfl

theorem mkdirParents_eq_self (fs : FS) (p : PathParts)
    (h : ∀ a ∈ ancestors p, a ∈ fs.dirs) : mkdirParents fs p = fs := by
  unfold mkdirParents
  have hfold : ∀ (l : List PathParts) (ds : List PathParts),
      (∀ q ∈ l, q ∈ ds) →
      l.foldl (fun ds q => if ds.contains q then ds else ds ++ [q]) ds = ds := by
    intro l
    induction l with
    | nil => intro ds _; rfl
    | cons z rest ihl =>
      intro ds hds
      have hz : ds.contains z = true := by
        have : z ∈ ds := hds z (List.mem_cons_self z rest)
        simp [List.contains]
        exact this
      simp only [List.foldl_cons, hz, if_true]
      exact ihl ds fun q hq => hds q (List.mem_cons_of_mem z hq)
  rw [hfold (ancestors p) fs.dirs h]

/-! ## C8: validation before any filesystem write -/

theorem mkdirParents_nil (fs : FS) : mkdirParents fs [] = fs := rfl

theorem mkdir_eq_of_file_inside (fs : FS) (dir : PathParts) (hwf : WfFS fs)
    (hfile : ∃ f ∈ fs.files, strictlyInside dir f.1 = true) :
    mkdirParents fs dir = fs := by
  by_cases hdir : dir = []
  · rw [hdir]
    exact mkdirParents_nil fs
  · obtain ⟨f, hf, hin⟩ := hfile
    simp only [strictlyInside, Bool.and_eq_true, decide_eq_true_eq] at hin
    have hmem : dir ∈ ancestors f.1 :=
      (mem_ancestors_iff dir f.1).2 ⟨hdir, hin.1⟩
    have hne : dir ≠ f.1 := by
      intro hcon
      rw [hcon] at hin
      omega
    have hdirs : dir ∈ fs.dirs := hwf.1 f hf dir hmem hne
    apply mkdirParents_eq_self
    intro a ha
    exact hwf.2 dir hdirs a ha

theorem iter_within_inside (fs : FS) (planRoot dir : PathParts) (p : PathParts)
    (hp : p ∈ iter_execplan_files_within fs planRoot dir) :
    (∃ f ∈ fs.files, f.1 = p) ∧ strictlyInside planRoot p = true := by
  unfold iter_execplan_files_within at hp
  have hmem := List.mem_filter.1 hp
  obtain ⟨hmap, hpred⟩ := hmem
  simp only [Bool.and_eq_true] at hpred
  obtain ⟨f, hf, hfp⟩ := List.mem_map.1 hmap
  exact ⟨⟨f, hf, hfp⟩, hpred.1.1⟩

theorem iter_inside (fs : FS) (dir : PathParts) (p : PathParts)
    (hp : p ∈ iter_execplan_files fs dir) :
    (∃ f ∈ fs.files, f.1 = p) ∧ strictlyInside dir p = true := by
  unfold iter_execplan_files at hp
  have hmem := List.mem_filter.1 hp
  obtain ⟨hmap, hpred⟩ := hmem
  simp only [Bool.and_eq_true] at hpred
  obtain ⟨f, hf, hfp⟩ := List.mem_map.1 hmap
  exact ⟨⟨f, hf, hfp⟩, hpred.1.1⟩

theorem strictlyInside_of_append (a sub p : PathParts)
    (h : strictlyInside (a ++ sub) p = true) : strictlyInside a p = true := by
  simp only [strictlyInside, Bool.and_eq_true, decide_eq_true_eq] at h ⊢
  refine ⟨leadsTo_trans (leadsTo_append_self a sub) h.1, ?_⟩
  have := h.2
  rw [List.length_append] at this
  omega

theorem mkdir_eq_of_iter_within_ne_nil (fs : FS) (dir sub : PathParts)
    (hwf : WfFS fs)
    (h : iter_execplan_files_within (mkdirParents fs dir) (dir ++ sub) dir ≠
      []) :
    mkdirParents fs dir = fs := by
  obtain ⟨p, hp⟩ := List.exists_mem_of_ne_nil _ h
  obtain ⟨⟨f, hf, hfp⟩, hinside⟩ :=
    iter_within_inside (mkdirParents fs dir) (dir ++ sub) dir p hp
  apply mkdir_eq_of_file_inside fs dir hwf
  refine ⟨f, hf, ?_⟩
  rw [hfp]
  exact strictlyInside_of_append dir sub p hinside

theorem mkdir_eq_of_iter_ne_nil (fs : FS) (dir : PathParts) (hwf : WfFS fs)
    (h : iter_execplan_files (mkdirParents fs dir) dir ≠ []) :
    mkdirParents fs dir = fs := by
  obtain ⟨p, hp⟩ := List.exists_mem_of_ne_nil _ h
  obtain ⟨⟨f, hf, hfp⟩, hinside⟩ := iter_inside (mkdirParents fs dir) dir p hp
  exact mkdir_eq_of_file_inside fs dir hwf ⟨f, hf, hfp ▸ hinside⟩

theorem next_sequence_of_iter_nil (fs : FS) (dir : PathParts) (day : String)
    (h : iter_execplan_files fs dir = []) :
    next_sequence_for_date fs dir day = 1 := by
  unfold next_sequence_for_date
  rw [h]
  rfl

theorem mkdir_eq_of_seq_overflow (fs : FS) (dir : PathParts) (day : String)
    (hwf : WfFS fs)
    (h : next_sequence_for_date (mkdirParents fs dir) dir day > 999) :
    mkdirParents fs dir = fs := by
  apply mkdir_eq_of_iter_ne_nil fs dir hwf
  intro hcon
  rw [next_sequence_of_iter_nil _ _ _ hcon] at h
  omega

/-- C8: every `create_execplan` call that raises a validation error
(bad title, owner, kind, domain, slug, date, slug-directory collision,
or sequence overflow) leaves a well-formed filesystem — files and
directories — exactly as it was before the call: no write precedes a
raised validation error. -/
theorem create_validation_error_leaves_fs_unchanged (fs : FS)
    (dir : PathParts) (title : String) (slugArg : Option String)
    (owner kind domain day : String) (hwf : WfFS fs) (e : CreateErr) (fs2 : FS)
    (hrun : create_execplan fs dir title slugArg owner kind domain day =
      (.error e, fs2))
    (hvalidation : e.isValidation = true) : fs2 = fs := by
  unfold create_execplan at hrun
  cases hv : create_validate title slugArg owner kind domain day with
  | error e2 =>
    rw [hv] at hrun
    dsimp only [] at hrun
    rw [Prod.mk.injEq] at hrun
    exact hrun.2.symm
  | ok v =>
    obtain ⟨t, k, dm, ow, chosen⟩ := v
    rw [hv] at hrun
    dsimp only [] at hrun
    split at hrun
    · -- the target plan root exists
      split at hrun
      · -- the slug-directory collision branch
        rename_i hcoll
        rw [Prod.mk.injEq] at hrun
        rw [← hrun.2]
        apply mkdir_eq_of_iter_within_ne_nil fs dir
          [EXECPLAN_ACTIVE_DIR, chosen] hwf
        intro hcon
        rw [hcon] at hcoll
        exact Bool.noConfusion hcoll
      · split at hrun
        · -- the sequence-overflow branch
          rename_i hover
          rw [Prod.mk.injEq] at hrun
          rw [← hrun.2]
          exact mkdir_eq_of_seq_overflow fs dir day hwf hover
        · split at hrun
          · -- `open("x")` race: a FileExistsError, not a validation error
            rw [Prod.mk.injEq, Except.error.injEq] at hrun
            rw [← hrun.1] at hvalidation
            exact Bool.noConfusion hvalidation
          · exact Except.noConfusion (congrArg Prod.fst hrun)
    · -- the target plan root does not exist: the collision list is empty
      split at hrun
      · rename_i hcoll
        exact Bool.noConfusion hcoll
      · split at hrun
        · rename_i hover
          rw [Prod.mk.injEq] at hrun
          rw [← hrun.2]
          exact mkdir_eq_of_seq_overflow fs dir day hwf hover
        · split at hrun
          · rw [Prod.mk.injEq, Except.error.injEq] at hrun
            rw [← hrun.1] at hvalidation
            exact Bool.noConfusion hvalidation
          · exact Except.noConfusion (congrArg Prod.fst hrun)

def c8fs : FS :=
  ⟨[(["ep", "active", "demo", "EP-20260207-001_demo.md"], Doc.raw "x")],
   [["ep"], ["ep", "active"], ["ep", "active", "demo"]]⟩

theorem create_validation_error_leaves_fs_unchanged_witness :
    WfFS c8fs ∧
      (create_execplan c8fs ["ep"] "Demo" none "@codex" "feature" "backend"
          "20260207").1 = .error .slugCollision ∧
      (create_execplan c8fs ["ep"] "Demo" none "@codex" "feature" "backend"
          "20260207").2 = c8fs :=
  ⟨by unfold WfFS; decide, by decide,
    create_validation_error_leaves_fs_unchanged c8fs ["ep"] "Demo" none
      "@codex" "feature" "backend" "20260207" (by unfold WfFS; decide)
      .slugCollision
      (create_execplan c8fs ["ep"] "Demo" none "@codex" "feature" "backend"
          "20260207").2 (by decide) (by decide)⟩

/-! ## C1: archive rollback -/

theorem filterMap_id_of_mem {α : Type} (l : List α) (F : α → Option α)
    (h : ∀ x ∈ l, F x = some x) : l.filterMap F = l := by
  induction l with
  | nil => rfl
  | cons z rest ih =>
    rw [List.filterMap_cons, h z (List.mem_cons_self z rest),
      ih (fun x hx => h x (List.mem_cons_of_mem z hx))]

theorem filterMap_eq_map_of_mem {α β : Type} (l : List α) (F : α → Option β)
    (g : α → β) (h : ∀ x ∈ l, F x = some (g x)) : l.filterMap F = l.map g := by
  induction l with
  | nil => rfl
  | cons z rest ih =>
    rw [List.filterMap_cons, h z (List.mem_cons_self z rest),
      ih (fun x hx => h x (List.mem_cons_of_mem z hx)), List.map_cons]

theorem leadsTo_prefix_of_le : ∀ (a b c : PathParts),
    leadsTo a (b ++ c) = true → a.length ≤ b.length → leadsTo a b = true
  | [], _, _, _, _ => rfl
  | _ :: _, [], _, _, hle => absurd hle (by simp)
  | x :: as, y :: bs, c, h, hle => by
    rw [List.cons_append] at h
    simp only [leadsTo, Bool.and_eq_true] at h ⊢
    exact ⟨h.1, leadsTo_prefix_of_le as bs c h.2 (by simpa using hle)⟩

theorem leadsTo_append_both {a b : PathParts} (d : PathParts)
    (h : leadsTo a b = true) : leadsTo (d ++ a) (d ++ b) = true := by
  obtain ⟨c, rfl⟩ := (leadsTo_iff_append a b).1 h
  rw [← List.append_assoc]
  exact leadsTo_append_self (d ++ a) c

theorem no_file_at_or_below (fs : FS) (p : PathParts)
    (h : existsPath fs p = false) :
    ∀ f ∈ fs.files, leadsTo p f.1 = false := by
  intro f hf
  cases hl : leadsTo p f.1 with
  | false => rfl
  | true =>
    exfalso
    have hcontra : existsPath fs p = true := by
      unfold existsPath
      rw [Bool.or_eq_true]
      refine Or.inr (List.any_eq_true.2 ⟨f, hf, ?_⟩)
      rcases eq_or_ne f.1 p with heq | hne
      · simp [heq]
      · have hlt : p.length < f.1.length := by
          rcases Nat.lt_or_ge p.length f.1.length with h1 | h1
          · exact h1
          · exact absurd (leadsTo_antisymm hl h1) (Ne.symm hne)
        simp [strictlyInside, hl, hlt]
    rw [h] at hcontra
    exact Bool.noConfusion hcontra

theorem moveFile_roundtrip (fs : FS) (src app : PathParts)
    (hnof : ∀ f ∈ fs.files, f.1 ≠ app) (hne : src ≠ app) :
    (moveFile (moveFile fs src app) app src).files = fs.files := by
  show (fs.files.filterMap (moveFileEntry src app)).filterMap
      (moveFileEntry app src) = fs.files
  rw [List.filterMap_filterMap]
  apply filterMap_id_of_mem
  intro f hf
  obtain ⟨fp, fd⟩ := f
  have hnapp : (fp == app) = false := by
    simpa using hnof (fp, fd) hf
  by_cases hsrc : fp = src
  · subst hsrc
    have h1 : (app == fp) = false := by
      simp only [beq_eq_false_iff_ne]
      exact fun hh => hne hh.symm
    have h2 : ¬app = fp := fun hh => hne hh.symm
    simp [moveFileEntry, hnapp, h1, h2]
  · have hnsrc : (fp == src) = false := by simpa using hsrc
    have hfpapp : fp ≠ app := by simpa using hnapp
    simp [moveFileEntry, hnapp, hnsrc, hsrc, hfpapp]

theorem moveTree_roundtrip (fs : FS) (srcRoot ar : PathParts)
    (hnof : ∀ f ∈ fs.files, leadsTo ar f.1 = false)
    (hsep : leadsTo srcRoot ar = false) (hle : srcRoot.length ≤ ar.length) :
    (moveTree (moveTree fs srcRoot ar) ar srcRoot).files = fs.files := by
  show (fs.files.filterMap (moveTreeEntry srcRoot ar)).filterMap
      (moveTreeEntry ar srcRoot) = fs.files
  rw [List.filterMap_filterMap]
  apply filterMap_id_of_mem
  intro f hf
  obtain ⟨fp, fd⟩ := f
  have har : leadsTo ar fp = false := hnof (fp, fd) hf
  by_cases hin : leadsTo srcRoot fp = true
  · have h1 : leadsTo srcRoot (ar ++ fp.drop srcRoot.length) = false := by
      cases hc : leadsTo srcRoot (ar ++ fp.drop srcRoot.length) with
      | false => rfl
      | true =>
        have := leadsTo_prefix_of_le srcRoot ar _ hc hle
        rw [hsep] at this
        exact Bool.noConfusion this
    have h2 : leadsTo ar (ar ++ fp.drop srcRoot.length) = true :=
      leadsTo_append_self ar _
    simp only [moveTreeEntry, har, Bool.false_eq_true, if_false, hin, if_true,
      Option.some_bind, h1, h2, append_drop_cancel]
    rw [leadsTo_append_drop hin]
  · have hin' : leadsTo srcRoot fp = false := eq_false_of_ne_true hin
    simp [moveTreeEntry, har, hin']

theorem legacy_roundtrip (fs : FS) (src app msRoot amr ar : PathParts)
    (hnof : ∀ f ∈ fs.files, leadsTo ar f.1 = false)
    (happ : leadsTo ar app = true) (hamr : leadsTo ar amr = true)
    (hms_app : leadsTo msRoot app = false)
    (hamr_app : leadsTo amr app = false)
    (hms_amr : leadsTo msRoot amr = false)
    (hlen : msRoot.length ≤ amr.length)
    (hsrcms : leadsTo msRoot src = false) :
    (moveFile (moveTree (moveTree (moveFile fs src app) msRoot amr) amr msRoot)
        app src).files = fs.files := by
  show (((fs.files.filterMap (moveFileEntry src app)).filterMap
      (moveTreeEntry msRoot amr)).filterMap (moveTreeEntry amr msRoot)).filterMap
      (moveFileEntry app src) = fs.files
  rw [List.filterMap_filterMap, List.filterMap_filterMap,
    List.filterMap_filterMap]
  apply filterMap_id_of_mem
  intro f hf
  obtain ⟨fp, fd⟩ := f
  have har : leadsTo ar fp = false := hnof (fp, fd) hf
  have hfp_app : fp ≠ app := by
    intro hh
    rw [hh, happ] at har
    exact Bool.noConfusion har
  have hfp_app' : (fp == app) = false := by simpa using hfp_app
  have hamr_fp : leadsTo amr fp = false := by
    cases hc : leadsTo amr fp with
    | false => rfl
    | true =>
      have := leadsTo_trans hamr hc
      rw [har] at this
      exact Bool.noConfusion this
  by_cases hsrc : fp = src
  · -- the plan file: moved to `app`, passed through, moved back
    subst hsrc
    have h1 : leadsTo msRoot fp = false := hsrcms
    have happ_fp : (app == fp) = false := by
      simpa using fun hh => hfp_app hh.symm
    have happ_fp2 : ¬app = fp := fun hh => hfp_app hh.symm
    simp [moveFileEntry, moveTreeEntry, hfp_app', hms_app, hamr_app, happ_fp,
      happ_fp2]
  · have hnsrc : (fp == src) = false := by simpa using hsrc
    by_cases hms : leadsTo msRoot fp = true
    · -- a legacy milestone file: moved under `amr`, moved back
      have h1 : leadsTo msRoot (amr ++ fp.drop msRoot.length) = false := by
        cases hc : leadsTo msRoot (amr ++ fp.drop msRoot.length) with
        | false => rfl
        | true =>
          have := leadsTo_prefix_of_le msRoot amr _ hc hlen
          rw [hms_amr] at this
          exact Bool.noConfusion this
      have h2 : leadsTo amr (amr ++ fp.drop msRoot.length) = true :=
        leadsTo_append_self amr _
      simp only [moveFileEntry, moveTreeEntry, hfp_app', Bool.false_eq_true,
        if_false, hnsrc, Option.some_bind, hamr_fp, hms, if_true, h1, h2,
        append_drop_cancel, leadsTo_append_drop hms]
    · -- any other file: untouched by all four steps
      have hms' : leadsTo msRoot fp = false := eq_false_of_ne_true hms
      simp [moveFileEntry, moveTreeEntry, hfp_app', hnsrc, hamr_fp, hms',
        hsrc, hfp_app]

theorem leadsTo_of_getD : ∀ (root parts : PathParts),
    root.length ≤ parts.length →
    (∀ i, i < root.length → root.getD i "" = parts.getD i "") →
    leadsTo root parts = true
  | [], _, _, _ => rfl
  | _ :: _, [], hlen, _ => absurd hlen (by simp)
  | x :: xs, y :: ys, hlen, hi => by
    simp only [leadsTo, Bool.and_eq_true, beq_iff_eq]
    refine ⟨?_, leadsTo_of_getD xs ys (by simpa using hlen) ?_⟩
    · have := hi 0 (by simp)
      simpa using this
    · intro i hilt
      have := hi (i + 1) (by simpa using hilt)
      simpa using this

theorem classify_root_facts (parts root : PathParts) (b : Bool)
    (h : classify_execplan_layout parts = some (root, b)) :
    leadsTo root parts = true ∧ root.length < parts.length ∧
      root.length ≤ 5 := by
  simp only [classify_execplan_layout] at h
  repeat' split at h
  · rename_i hc
    simp only [Bool.and_eq_true, decide_eq_true_eq, beq_iff_eq] at hc
    obtain ⟨hlen, hp0⟩ := hc
    rw [Option.some.injEq, Prod.mk.injEq] at h
    obtain ⟨hroot, -⟩ := h
    subst hroot
    refine ⟨leadsTo_of_getD _ parts (by simp; omega) ?_, by simp; omega,
      by simp⟩
    intro i hi
    simp only [List.length_cons, List.length_nil] at hi
    interval_cases i
    · exact hp0.symm
    · rfl
  · rename_i hc
    simp only [Bool.and_eq_true, decide_eq_true_eq, beq_iff_eq] at hc
    obtain ⟨hlen, hp0⟩ := hc
    rw [Option.some.injEq, Prod.mk.injEq] at h
    obtain ⟨hroot, -⟩ := h
    subst hroot
    refine ⟨leadsTo_of_getD _ parts (by simp; omega) ?_, by simp; omega,
      by simp⟩
    intro i hi
    simp only [List.length_cons, List.length_nil] at hi
    interval_cases i
    · exact hp0.symm
  · rename_i hc
    simp only [Bool.and_eq_true, decide_eq_true_eq, beq_iff_eq] at hc
    obtain ⟨⟨hlen, hp0⟩, hdate⟩ := hc
    rw [Option.some.injEq, Prod.mk.injEq] at h
    obtain ⟨hroot, -⟩ := h
    subst hroot
    refine ⟨leadsTo_of_getD _ parts (by simp; omega) ?_, by simp; omega,
      by simp⟩
    intro i hi
    simp only [List.length_cons, List.length_nil] at hi
    interval_cases i
    · exact hp0.symm
    · rfl
    · rfl
    · rfl
    · rfl
  · rename_i hc
    simp only [Bool.and_eq_true, decide_eq_true_eq, beq_iff_eq,
      bne_iff_ne] at hc
    obtain ⟨⟨hlen, hp1⟩, hp0⟩ := hc
    rw [Option.some.injEq, Prod.mk.injEq] at h
    obtain ⟨hroot, -⟩ := h
    subst hroot
    refine ⟨leadsTo_of_getD _ parts (by simp; omega) ?_, by simp; omega,
      by simp⟩
    intro i hi
    simp only [List.length_cons, List.length_nil] at hi
    interval_cases i
    · rfl
    · exact hp1.symm
  · rename_i hc
    simp only [Bool.and_eq_true, decide_eq_true_eq, beq_iff_eq,
      bne_iff_ne] at hc
    obtain ⟨hlen, hp0⟩ := hc
    rw [Option.some.injEq, Prod.mk.injEq] at h
    obtain ⟨hroot, -⟩ := h
    subst hroot
    refine ⟨leadsTo_of_getD _ parts (by simp; omega) ?_, by simp; omega,
      by simp⟩
    intro i hi
    simp only [List.length_cons, List.length_nil] at hi
    interval_cases i
    · rfl
  · exact Option.noConfusion h

theorem resolve_ok_facts (fs : FS) (dir : PathParts) (id : String)
    (src : PathParts) (h : resolve_execplan_by_id fs dir id = .ok src) :
    (iter_execplan_files fs dir).filter
      (fun p => extract_execplan_id_from_filename (lastComponent p) ==
        some id) = [src] := by
  unfold resolve_execplan_by_id at h
  split at h
  · exact Except.noConfusion h
  · split at h
    · exact Except.noConfusion h
    · split at h
      · exact Except.noConfusion h
      · rename_i m heq
        rw [Except.ok.injEq] at h
        rw [heq, h]
      · exact Except.noConfusion h

theorem archive_checks_ok_facts (fs : FS) (dir : PathParts) (id day : String)
    (src srcRoot : PathParts) (legacy : Bool)
    (h : archive_checks fs dir id day = .ok (src, srcRoot, legacy)) :
    resolve_execplan_by_id fs dir id = .ok src ∧
    (∃ rel, get_execplan_plan_root (src.drop dir.length) = some rel ∧
      srcRoot = dir ++ rel) ∧
    (archRoot dir day id srcRoot == srcRoot ||
      leadsTo srcRoot (archRoot dir day id srcRoot)) = false ∧
    legacy = (srcRoot == dir ++ [EXECPLAN_ACTIVE_DIR] &&
      src.dropLast == srcRoot) := by
  unfold archive_checks at h
  cases hres : resolve_execplan_by_id fs dir id with
  | error e =>
    rw [hres] at h
    exact Except.noConfusion h
  | ok src0 =>
    rw [hres] at h
    dsimp only [] at h
    split at h
    · exact Except.noConfusion h
    · cases hcls : get_execplan_plan_root (src0.drop dir.length) with
      | none =>
        rw [hcls] at h
        exact Except.noConfusion h
      | some rel =>
        rw [hcls] at h
        dsimp only [] at h
        repeat' split at h
        all_goals
          first
          | exact Except.noConfusion h
          | (rw [Except.ok.injEq, Prod.mk.injEq, Prod.mk.injEq] at h
             obtain ⟨h1, h2, h3⟩ := h
             subst h1
             subst h2
             subst h3
             exact ⟨rfl, ⟨rel, hcls, rfl⟩,
               eq_false_of_ne_true (by assumption), rfl⟩)

theorem archMark_some_hasFile (fs : FS) (inj : ArchiveInject)
    (app : PathParts) (day : String) (d2 : Doc)
    (h : archMark fs inj app day = some d2) : hasFile fs app = true := by
  unfold archMark at h
  split at h
  · exact Option.noConfusion h
  · unfold hasFile
    cases hg : getFile fs app with
    | none =>
      rw [hg] at h
      exact Option.noConfusion h
    | some d => rfl

theorem hasFile_iff (fs : FS) (p : PathParts) :
    hasFile fs p = true ↔ ∃ f ∈ fs.files, f.1 = p := by
  unfold hasFile getFile
  cases hfind : fs.files.find? (fun f => f.1 == p) with
  | none =>
    simp only [Option.map_none', Option.isSome_none]
    constructor
    · intro hh
      exact Bool.noConfusion hh
    · rintro ⟨f, hf, hfp⟩
      have := List.find?_eq_none.1 hfind f hf
      simp [hfp] at this
  | some f0 =>
    simp only [Option.map_some', Option.isSome_some]
    constructor
    · intro _
      exact ⟨f0, List.mem_of_find?_eq_some hfind,
        by simpa using List.find?_some hfind⟩
    · intro _
      trivial

theorem lastComponent_append (a c : PathParts) (hc : c ≠ []) :
    lastComponent (a ++ c) = lastComponent c := by
  unfold lastComponent
  have hg : ∀ (a2 : PathParts), (a2 ++ c).getLast? = c.getLast? := by
    intro a2
    induction a2 with
    | nil => rfl
    | cons x xs ih =>
      cases hxc : xs ++ c with
      | nil => exact absurd (List.append_eq_nil.1 hxc).2 hc
      | cons y ys =>
        rw [List.cons_append, hxc, List.getLast?_cons_cons, ← hxc, ih]
  rw [hg a]

theorem archRoot_shape (dir : PathParts) (day id : String)
    (srcRoot : PathParts) :
    leadsTo dir (archRoot dir day id srcRoot) = true ∧
      (archRoot dir day id srcRoot).length = dir.length + 5 := by
  unfold archRoot archParent
  constructor
  · rw [List.append_assoc]
    exact leadsTo_append_self dir _
  · simp

/-- The number of files on disk strictly under the execplans directory
whose filename matches the plan glob and encodes the given plan ID. -/
def count_execplan_files_for_id (fs : FS) (dir : PathParts) (id : String) :
    Nat :=
  ((fs.files.map (fun f => f.1)).filter (fun p =>
    strictlyInside dir p && matchesEpGlob (lastComponent p) &&
      (extract_execplan_id_from_filename (lastComponent p) ==
        some id))).length

theorem moveFile_to_fresh (fs : FS) (src app : PathParts)
    (hnof : ∀ f ∈ fs.files, f.1 ≠ app) :
    (moveFile fs src app).files =
      fs.files.map (fun f => if f.1 == src then (app, f.2) else f) := by
  show fs.files.filterMap (moveFileEntry src app) = _
  apply filterMap_eq_map_of_mem
  intro f hf
  have h1 : (f.1 == app) = false := by simpa using hnof f hf
  by_cases hs : (f.1 == src) = true
  · simp [moveFileEntry, h1, hs]
  · simp [moveFileEntry, h1, eq_false_of_ne_true hs]

theorem moveTree_id_of_none (fs : FS) (a b : PathParts)
    (h1 : ∀ f ∈ fs.files, leadsTo b f.1 = false)
    (h2 : ∀ f ∈ fs.files, leadsTo a f.1 = false) :
    (moveTree fs a b).files = fs.files := by
  show fs.files.filterMap (moveTreeEntry a b) = fs.files
  apply filterMap_id_of_mem
  intro f hf
  simp [moveTreeEntry, h1 f hf, h2 f hf]

theorem moveTree_to_fresh (fs : FS) (srcRoot ar src : PathParts)
    (hnof : ∀ f ∈ fs.files, leadsTo ar f.1 = false)
    (honly : ∀ f ∈ fs.files, leadsTo srcRoot f.1 = true → f.1 = src)
    (hsrcin : leadsTo srcRoot src = true) :
    (moveTree fs srcRoot ar).files =
      fs.files.map (fun f => if f.1 == src then
        (ar ++ src.drop srcRoot.length, f.2) else f) := by
  show fs.files.filterMap (moveTreeEntry srcRoot ar) = _
  apply filterMap_eq_map_of_mem
  intro f hf
  have h1 : leadsTo ar f.1 = false := hnof f hf
  by_cases hs : (f.1 == src) = true
  · have hfp : f.1 = src := by simpa using hs
    rw [hfp] at h1
    simp [moveTreeEntry, h1, hfp, hsrcin]
  · have hno : leadsTo srcRoot f.1 = false := by
      cases hc : leadsTo srcRoot f.1 with
      | false => rfl
      | true => exact absurd (honly f hf hc) (by simpa using hs)
    simp [moveTreeEntry, h1, hno, eq_false_of_ne_true hs]

theorem writeFile_map (fs : FS) (app : PathParts) (d2 : Doc)
    (hhas : hasFile fs app = true) :
    (writeFile fs app d2).files =
      fs.files.map (fun f => if f.1 == app then (app, d2) else f) := by
  unfold writeFile
  rw [hhas]
  simp

theorem map_if_compose (l : List (PathParts × Doc)) (src app : PathParts)
    (d2 : Doc) (hnoapp : ∀ f ∈ l, f.1 ≠ app) :
    (l.map (fun f => if f.1 == src then (app, f.2) else f)).map
      (fun f => if f.1 == app then (app, d2) else f) =
      l.map (fun f => if f.1 == src then (app, d2) else f) := by
  rw [List.map_map]
  apply List.map_congr_left
  intro f hf
  by_cases hs : (f.1 == src) = true
  · simp [Function.comp, hs]
  · have h2 : (f.1 == app) = false := by simpa using hnoapp f hf
    simp [Function.comp, eq_false_of_ne_true hs, h2]

theorem archive_ok_state (fs fs2 : FS) (dir : PathParts) (id : String)
    (src app : PathParts) (d2 : Doc)
    (hpost : fs2.files =
      fs.files.map (fun f => if f.1 == src then (app, d2) else f))
    (hresolve : (iter_execplan_files fs dir).filter
      (fun p => extract_execplan_id_from_filename (lastComponent p) ==
        some id) = [src])
    (hunique : ∀ f ∈ fs.files, strictlyInside dir f.1 = true → f.1 ≠ src →
      (matchesEpGlob (lastComponent f.1) &&
        (extract_execplan_id_from_filename (lastComponent f.1) ==
          some id)) = false)
    (happ_in : strictlyInside dir app = true)
    (happ_name : lastComponent app = lastComponent src)
    (hsrc_app : src ≠ app) :
    count_execplan_files_for_id fs dir id = 1 ∧
    count_execplan_files_for_id fs2 dir id = 1 ∧
    hasFile fs2 app = true ∧ hasFile fs2 src = false := by
  have hsrc_mem_res : src ∈ (iter_execplan_files fs dir).filter
      (fun p => extract_execplan_id_from_filename (lastComponent p) ==
        some id) := by
    rw [hresolve]
    exact List.mem_singleton.2 rfl
  have hsrc_iter : src ∈ iter_execplan_files fs dir :=
    List.mem_of_mem_filter hsrc_mem_res
  have hQsrc : (extract_execplan_id_from_filename (lastComponent src) ==
      some id) = true := (List.mem_filter.1 hsrc_mem_res).2
  unfold iter_execplan_files at hsrc_iter hresolve
  have hsrc_memA : src ∈ fs.files.map (fun f => f.1) :=
    (List.mem_filter.1 hsrc_iter).1
  have hPsrc := (List.mem_filter.1 hsrc_iter).2
  simp only [Bool.and_eq_true] at hPsrc
  obtain ⟨⟨hinside, hglob⟩, hms⟩ := hPsrc
  have hCp : ∀ p ∈ fs.files.map (fun f => f.1),
      (strictlyInside dir p && matchesEpGlob (lastComponent p) &&
        (extract_execplan_id_from_filename (lastComponent p) == some id)) =
        (p == src) := by
    intro p hp
    obtain ⟨f, hf, hfp⟩ := List.mem_map.1 hp
    by_cases hps : p = src
    · subst hps
      simp [hinside, hglob, hQsrc]
    · rw [show (p == src) = false by simpa using hps]
      by_cases hin : strictlyInside dir p = true
      · have hfalse := hunique f hf (by rw [hfp]; exact hin)
          (by rw [hfp]; exact hps)
        rw [hfp] at hfalse
        cases hg : matchesEpGlob (lastComponent p) with
        | false => simp [hg]
        | true =>
          rw [hg] at hfalse
          simp only [Bool.true_and] at hfalse
          simp [hg, hfalse]
      · simp [eq_false_of_ne_true hin]
  have hPQp : ∀ p ∈ fs.files.map (fun f => f.1),
      ((extract_execplan_id_from_filename (lastComponent p) == some id) &&
        (strictlyInside dir p && matchesEpGlob (lastComponent p) &&
          !(is_execplan_milestone_path (p.drop dir.length)))) =
        (p == src) := by
    intro p hp
    obtain ⟨f, hf, hfp⟩ := List.mem_map.1 hp
    by_cases hps : p = src
    · subst hps
      simp [hinside, hglob, hQsrc, hms]
    · rw [show (p == src) = false by simpa using hps]
      by_cases hin : strictlyInside dir p = true
      · have hfalse := hunique f hf (by rw [hfp]; exact hin)
          (by rw [hfp]; exact hps)
        rw [hfp] at hfalse
        cases hg : matchesEpGlob (lastComponent p) with
        | false => simp [hg]
        | true =>
          rw [hg] at hfalse
          simp only [Bool.true_and] at hfalse
          simp [hg, hfalse]
      · simp [eq_false_of_ne_true hin]
  have hfilterS : (fs.files.map (fun f => f.1)).filter (fun p => p == src) =
      [src] := by
    rw [← List.filter_congr hPQp]
    rw [← List.filter_filter]
    exact hresolve
  have hcount1 : count_execplan_files_for_id fs dir id = 1 := by
    unfold count_execplan_files_for_id
    rw [List.filter_congr hCp, hfilterS]
    rfl
  have hA2 : fs2.files.map (fun f => f.1) =
      (fs.files.map (fun f => f.1)).map
        (fun p => if p == src then app else p) := by
    rw [hpost, List.map_map, List.map_map]
    apply List.map_congr_left
    intro f hf
    by_cases hs : (f.1 == src) = true
    · simp [Function.comp, hs]
    · simp [Function.comp, eq_false_of_ne_true hs]
  have hChp : ∀ p ∈ fs.files.map (fun f => f.1),
      ((fun p => strictlyInside dir p && matchesEpGlob (lastComponent p) &&
          (extract_execplan_id_from_filename (lastComponent p) == some id)) ∘
        (fun p => if p == src then app else p)) p = (p == src) := by
    intro p hp
    by_cases hps : p = src
    · subst hps
      simp [Function.comp, happ_name, happ_in, hglob, hQsrc]
    · have hbs : (p == src) = false := by simpa using hps
      simp only [Function.comp, hbs, Bool.false_eq_true, if_false]
      rw [hCp p hp]
      exact hbs
  have hcount2 : count_execplan_files_for_id fs2 dir id = 1 := by
    unfold count_execplan_files_for_id
    rw [hA2, List.filter_map, List.filter_congr hChp, hfilterS]
    rfl
  have hhas_app : hasFile fs2 app = true := by
    rw [hasFile_iff]
    obtain ⟨f, hf, hfp⟩ := List.mem_map.1 hsrc_memA
    refine ⟨(app, d2), ?_, rfl⟩
    rw [hpost]
    exact List.mem_map.2 ⟨f, hf, by simp [hfp]⟩
  have hhas_src : hasFile fs2 src = false := by
    apply eq_false_of_ne_true
    intro hth
    obtain ⟨f2, hf2, hf2p⟩ := (hasFile_iff fs2 src).1 hth
    rw [hpost] at hf2
    obtain ⟨f, hf, himg⟩ := List.mem_map.1 hf2
    by_cases hs : (f.1 == src) = true
    · rw [if_pos hs] at himg
      apply hsrc_app
      rw [← himg] at hf2p
      exact hf2p.symm
    · rw [if_neg hs] at himg
      apply hs
      rw [himg]
      simpa using hf2p
  exact ⟨hcount1, hcount2, hhas_app, hhas_src⟩

theorem modern_moves_spec (fs fs1 : FS) (dir : PathParts) (id day : String)
    (inj : ArchiveInject) (src srcRoot ar : PathParts)
    (hfiles1 : fs1.files = fs.files)
    (hnof : ∀ f ∈ fs.files, leadsTo ar f.1 = false)
    (hsep : leadsTo srcRoot ar = false)
    (hlenra : srcRoot.length ≤ ar.length)
    (hsrcin : leadsTo srcRoot src = true)
    (hdirar : leadsTo dir ar = true)
    (hlar : dir.length < ar.length)
    (hdrop : src.drop srcRoot.length ≠ [])
    (hsrcfile : ∃ f ∈ fs.files, f.1 = src)
    (hresolve : (iter_execplan_files fs dir).filter
      (fun p => extract_execplan_id_from_filename (lastComponent p) ==
        some id) = [src]) :
    (∀ e, (modern_moves fs1 inj id day src srcRoot ar).outcome = .err e →
      (modern_moves fs1 inj id day src srcRoot ar).fs.files = fs.files ∧
      (modern_moves fs1 inj id day src srcRoot ar).undoneMoves =
        ((modern_moves fs1 inj id day src srcRoot
          ar).completedMoves).reverse.map Prod.swap) ∧
    (∀ p, (modern_moves fs1 inj id day src srcRoot ar).outcome =
        .fatalOrphan p →
      (∃ s, (s, p) ∈ (modern_moves fs1 inj id day src srcRoot
        ar).completedMoves) ∧
      ∀ s, (p, s) ∉ (modern_moves fs1 inj id day src srcRoot
        ar).undoneMoves) ∧
    (∀ res, (modern_moves fs1 inj id day src srcRoot ar).outcome = .ok res →
      (∀ f ∈ fs.files, leadsTo res.source_plan_root f.1 = true →
        f.1 = res.source_plan_path) →
      (∀ f ∈ fs.files, strictlyInside dir f.1 = true →
        f.1 ≠ res.source_plan_path →
        (matchesEpGlob (lastComponent f.1) &&
          (extract_execplan_id_from_filename (lastComponent f.1) ==
            some id)) = false) →
      count_execplan_files_for_id fs dir id = 1 ∧
      count_execplan_files_for_id
        (modern_moves fs1 inj id day src srcRoot ar).fs dir id = 1 ∧
      hasFile (modern_moves fs1 inj id day src srcRoot ar).fs
        res.archived_plan_path = true ∧
      hasFile (modern_moves fs1 inj id day src srcRoot ar).fs
        res.source_plan_path = false) := by
  have happ_lead : leadsTo ar (ar ++ src.drop srcRoot.length) = true :=
    leadsTo_append_self ar _
  have hsrc_ne_app : src ≠ ar ++ src.drop srcRoot.length := by
    obtain ⟨f0, hf0, hf0p⟩ := hsrcfile
    intro hcon
    have hh := hnof f0 hf0
    rw [hf0p, hcon, happ_lead] at hh
    exact Bool.noConfusion hh
  have hnoapp : ∀ f ∈ fs.files, f.1 ≠ ar ++ src.drop srcRoot.length := by
    intro f hf hcon
    have hh := hnof f hf
    rw [hcon, happ_lead] at hh
    exact Bool.noConfusion hh
  unfold modern_moves
  by_cases hmp : inj.failMovePlan = true
  · rw [if_pos hmp]
    exact ⟨fun e he => ⟨hfiles1, rfl⟩,
      fun p hp => ArchiveOutcome.noConfusion hp,
      fun res hres2 => ArchiveOutcome.noConfusion hres2⟩
  · rw [if_neg hmp]
    cases hmark : archMark (moveTree fs1 srcRoot ar) inj
        (ar ++ src.drop srcRoot.length) day with
    | some d2 =>
      dsimp only []
      refine ⟨fun e he => ArchiveOutcome.noConfusion he,
        fun p hp => ArchiveOutcome.noConfusion hp,
        fun res hres2 honly huniq => ?_⟩
      rw [ArchiveOutcome.ok.injEq] at hres2
      subst hres2
      have hstep : (moveTree fs1 srcRoot ar).files =
          fs.files.map (fun f => if f.1 == src then
            (ar ++ src.drop srcRoot.length, f.2) else f) := by
        rw [moveTree_to_fresh fs1 srcRoot ar src
          (fun f hf => hnof f (hfiles1 ▸ hf))
          (fun f hf => honly f (hfiles1 ▸ hf)) hsrcin, hfiles1]
      have hpost : (writeFile (moveTree fs1 srcRoot ar)
          (ar ++ src.drop srcRoot.length) d2).files =
          fs.files.map (fun f => if f.1 == src then
            (ar ++ src.drop srcRoot.length, d2) else f) := by
        rw [writeFile_map _ _ _
          (archMark_some_hasFile _ _ _ _ _ hmark), hstep,
          map_if_compose fs.files src (ar ++ src.drop srcRoot.length) d2
            hnoapp]
      have happ_in : strictlyInside dir (ar ++ src.drop srcRoot.length) =
          true := by
        have h1 : leadsTo dir (ar ++ src.drop srcRoot.length) = true :=
          leadsTo_trans hdirar happ_lead
        simp only [strictlyInside, h1, Bool.true_and, decide_eq_true_eq,
          List.length_append, List.length_drop]
        omega
      have happ_name : lastComponent (ar ++ src.drop srcRoot.length) =
          lastComponent src := by
        rw [lastComponent_append ar _ hdrop,
          ← lastComponent_append srcRoot (src.drop srcRoot.length) hdrop,
          leadsTo_append_drop hsrcin]
      exact archive_ok_state fs _ dir id src
        (ar ++ src.drop srcRoot.length) d2 hpost hresolve huniq happ_in
        happ_name hsrc_ne_app
    | none =>
      dsimp only []
      by_cases hfrbp : inj.failRollbackPlan = true
      · rw [if_pos hfrbp]
        refine ⟨fun e he => ArchiveOutcome.noConfusion he,
          fun p hp => ?_, fun res hres2 => ArchiveOutcome.noConfusion hres2⟩
        rw [ArchiveOutcome.fatalOrphan.injEq] at hp
        subst hp
        exact ⟨⟨srcRoot, List.mem_singleton.2 rfl⟩,
          fun s hs => List.not_mem_nil (ar, s) hs⟩
      · rw [if_neg hfrbp]
        refine ⟨fun e he => ?_, fun p hp => ArchiveOutcome.noConfusion hp,
          fun res hres2 => ArchiveOutcome.noConfusion hres2⟩
        constructor
        · rw [moveTree_roundtrip fs1 srcRoot ar
            (fun f hf => hnof f (hfiles1 ▸ hf)) hsep hlenra]
          exact hfiles1
        · rfl

theorem legacy_moves_spec (fs fs2 : FS) (dir : PathParts) (id day : String)
    (inj : ArchiveInject) (src srcRoot ar : PathParts) (hasMs : Bool)
    (hfiles2 : fs2.files = fs.files)
    (hnof : ∀ f ∈ fs.files, leadsTo ar f.1 = false)
    (hsep : leadsTo srcRoot ar = false)
    (hdirar : leadsTo dir ar = true)
    (hlar : dir.length < ar.length)
    (hlenmsar : srcRoot.length + 1 ≤ ar.length)
    (hname : lastComponent src ≠ MILESTONES_DIR)
    (hsrcfile : ∃ f ∈ fs.files, f.1 = src)
    (hsrc_eq : src = srcRoot ++ [lastComponent src])
    (hresolve : (iter_execplan_files fs dir).filter
      (fun p => extract_execplan_id_from_filename (lastComponent p) ==
        some id) = [src]) :
    (∀ e, (legacy_moves fs2 inj id day src srcRoot
        (ar ++ [lastComponent src]) (srcRoot ++ [MILESTONES_DIR])
        (ar ++ [MILESTONES_DIR]) ar hasMs).outcome = .err e →
      (legacy_moves fs2 inj id day src srcRoot (ar ++ [lastComponent src])
        (srcRoot ++ [MILESTONES_DIR]) (ar ++ [MILESTONES_DIR]) ar
        hasMs).fs.files = fs.files ∧
      (legacy_moves fs2 inj id day src srcRoot (ar ++ [lastComponent src])
        (srcRoot ++ [MILESTONES_DIR]) (ar ++ [MILESTONES_DIR]) ar
        hasMs).undoneMoves =
        ((legacy_moves fs2 inj id day src srcRoot (ar ++ [lastComponent src])
          (srcRoot ++ [MILESTONES_DIR]) (ar ++ [MILESTONES_DIR]) ar
          hasMs).completedMoves).reverse.map Prod.swap) ∧
    (∀ p, (legacy_moves fs2 inj id day src srcRoot
        (ar ++ [lastComponent src]) (srcRoot ++ [MILESTONES_DIR])
        (ar ++ [MILESTONES_DIR]) ar hasMs).outcome = .fatalOrphan p →
      (∃ s, (s, p) ∈ (legacy_moves fs2 inj id day src srcRoot
        (ar ++ [lastComponent src]) (srcRoot ++ [MILESTONES_DIR])
        (ar ++ [MILESTONES_DIR]) ar hasMs).completedMoves) ∧
      ∀ s, (p, s) ∉ (legacy_moves fs2 inj id day src srcRoot
        (ar ++ [lastComponent src]) (srcRoot ++ [MILESTONES_DIR])
        (ar ++ [MILESTONES_DIR]) ar hasMs).undoneMoves) ∧
    (∀ res, (legacy_moves fs2 inj id day src srcRoot
        (ar ++ [lastComponent src]) (srcRoot ++ [MILESTONES_DIR])
        (ar ++ [MILESTONES_DIR]) ar hasMs).outcome = .ok res →
      (∀ f ∈ fs.files, leadsTo res.source_plan_root f.1 = true →
        f.1 = res.source_plan_path) →
      (∀ f ∈ fs.files, strictlyInside dir f.1 = true →
        f.1 ≠ res.source_plan_path →
        (matchesEpGlob (lastComponent f.1) &&
          (extract_execplan_id_from_filename (lastComponent f.1) ==
            some id)) = false) →
      count_execplan_files_for_id fs dir id = 1 ∧
      count_execplan_files_for_id (legacy_moves fs2 inj id day src srcRoot
        (ar ++ [lastComponent src]) (srcRoot ++ [MILESTONES_DIR])
        (ar ++ [MILESTONES_DIR]) ar hasMs).fs dir id = 1 ∧
      hasFile (legacy_moves fs2 inj id day src srcRoot
        (ar ++ [lastComponent src]) (srcRoot ++ [MILESTONES_DIR])
        (ar ++ [MILESTONES_DIR]) ar hasMs).fs res.archived_plan_path =
        true ∧
      hasFile (legacy_moves fs2 inj id day src srcRoot
        (ar ++ [lastComponent src]) (srcRoot ++ [MILESTONES_DIR])
        (ar ++ [MILESTONES_DIR]) ar hasMs).fs res.source_plan_path =
        false) := by
  have happ_lead : leadsTo ar (ar ++ [lastComponent src]) = true :=
    leadsTo_append_self ar _
  have hamr_lead : leadsTo ar (ar ++ [MILESTONES_DIR]) = true :=
    leadsTo_append_self ar _
  have hsrc_ne_app : src ≠ ar ++ [lastComponent src] := by
    obtain ⟨f0, hf0, hf0p⟩ := hsrcfile
    intro hcon
    have hh := hnof f0 hf0
    rw [hf0p, hcon, happ_lead] at hh
    exact Bool.noConfusion hh
  have hnoapp : ∀ f ∈ fs.files, f.1 ≠ ar ++ [lastComponent src] := by
    intro f hf hcon
    have hh := hnof f hf
    rw [hcon, happ_lead] at hh
    exact Bool.noConfusion hh
  have hamr_ne_app : ar ++ [MILESTONES_DIR] ≠ ar ++ [lastComponent src] := by
    intro hcon
    have := List.append_cancel_left hcon
    simp only [List.cons.injEq, and_true] at this
    exact hname this.symm
  have hamr_app : leadsTo (ar ++ [MILESTONES_DIR])
      (ar ++ [lastComponent src]) = false := by
    cases hc : leadsTo (ar ++ [MILESTONES_DIR]) (ar ++ [lastComponent src])
      with
    | false => rfl
    | true =>
      exact absurd (leadsTo_antisymm hc (by simp)) hamr_ne_app
  have hms_ar : leadsTo (srcRoot ++ [MILESTONES_DIR]) ar = false := by
    cases hc : leadsTo (srcRoot ++ [MILESTONES_DIR]) ar with
    | false => rfl
    | true =>
      have h2 : leadsTo srcRoot ar = true :=
        leadsTo_trans (leadsTo_append_self srcRoot [MILESTONES_DIR]) hc
      rw [hsep] at h2
      exact Bool.noConfusion h2
  have hms_app : leadsTo (srcRoot ++ [MILESTONES_DIR])
      (ar ++ [lastComponent src]) = false := by
    cases hc : leadsTo (srcRoot ++ [MILESTONES_DIR])
        (ar ++ [lastComponent src]) with
    | false => rfl
    | true =>
      have h2 := leadsTo_prefix_of_le (srcRoot ++ [MILESTONES_DIR]) ar
        [lastComponent src] hc (by simp; omega)
      rw [hms_ar] at h2
      exact Bool.noConfusion h2
  have hms_amr : leadsTo (srcRoot ++ [MILESTONES_DIR])
      (ar ++ [MILESTONES_DIR]) = false := by
    cases hc : leadsTo (srcRoot ++ [MILESTONES_DIR])
        (ar ++ [MILESTONES_DIR]) with
    | false => rfl
    | true =>
      have h2 := leadsTo_prefix_of_le (srcRoot ++ [MILESTONES_DIR]) ar
        [MILESTONES_DIR] hc (by simp; omega)
      rw [hms_ar] at h2
      exact Bool.noConfusion h2
  have hsrcms : leadsTo (srcRoot ++ [MILESTONES_DIR]) src = false := by
    cases hc : leadsTo (srcRoot ++ [MILESTONES_DIR]) src with
    | false => rfl
    | true =>
      have heq := leadsTo_antisymm hc
        (by rw [hsrc_eq]; simp)
      rw [hsrc_eq] at heq
      have := List.append_cancel_left heq
      simp only [List.cons.injEq, and_true] at this
      exact False.elim (hname this.symm)
  have happ_in : strictlyInside dir (ar ++ [lastComponent src]) = true := by
    have h1 : leadsTo dir (ar ++ [lastComponent src]) = true :=
      leadsTo_trans hdirar happ_lead
    simp only [strictlyInside, h1, Bool.true_and, decide_eq_true_eq,
      List.length_append, List.length_cons, List.length_nil]
    omega
  have happ_name : lastComponent (ar ++ [lastComponent src]) =
      lastComponent src := by
    rw [lastComponent_append ar _ (by simp)]
    rfl
  unfold legacy_moves
  by_cases hmp : inj.failMovePlan = true
  · rw [if_pos hmp]
    exact ⟨fun e he => ⟨hfiles2, rfl⟩,
      fun p hp => ArchiveOutcome.noConfusion hp,
      fun res hres2 => ArchiveOutcome.noConfusion hres2⟩
  · rw [if_neg hmp]
    by_cases hhm : hasMs = true
    · rw [if_pos hhm]
      by_cases hfmm : inj.failMoveMs = true
      · rw [if_pos hfmm]
        by_cases hfrbp : inj.failRollbackPlan = true
        · rw [if_pos hfrbp]
          refine ⟨fun e he => ArchiveOutcome.noConfusion he,
            fun p hp => ?_,
            fun res hres2 => ArchiveOutcome.noConfusion hres2⟩
          rw [ArchiveOutcome.fatalOrphan.injEq] at hp
          subst hp
          exact ⟨⟨src, List.mem_singleton.2 rfl⟩,
            fun s hs => List.not_mem_nil _ hs⟩
        · rw [if_neg hfrbp]
          refine ⟨fun e he => ⟨?_, rfl⟩,
            fun p hp => ArchiveOutcome.noConfusion hp,
            fun res hres2 => ArchiveOutcome.noConfusion hres2⟩
          show (moveFile (moveFile fs2 src (ar ++ [lastComponent src]))
            (ar ++ [lastComponent src]) src).files = fs.files
          rw [moveFile_roundtrip fs2 src (ar ++ [lastComponent src])
            (fun f hf => hnoapp f (hfiles2 ▸ hf)) hsrc_ne_app]
          exact hfiles2
      · rw [if_neg hfmm]
        cases hmark : archMark (moveTree (moveFile fs2 src
            (ar ++ [lastComponent src])) (srcRoot ++ [MILESTONES_DIR])
            (ar ++ [MILESTONES_DIR])) inj (ar ++ [lastComponent src]) day
          with
        | some d2 =>
          dsimp only []
          refine ⟨fun e he => ArchiveOutcome.noConfusion he,
            fun p hp => ArchiveOutcome.noConfusion hp,
            fun res hres2 honly huniq => ?_⟩
          rw [ArchiveOutcome.ok.injEq] at hres2
          subst hres2
          have hnoms : ∀ f ∈ fs.files,
              leadsTo (srcRoot ++ [MILESTONES_DIR]) f.1 = false := by
            intro f hf
            cases hc : leadsTo (srcRoot ++ [MILESTONES_DIR]) f.1 with
            | false => rfl
            | true =>
              have hfin : leadsTo srcRoot f.1 = true :=
                leadsTo_trans (leadsTo_append_self srcRoot _) hc
              have hfsrc := honly f hf hfin
              rw [hfsrc] at hc
              rw [hsrcms] at hc
              exact Bool.noConfusion hc
          have hstep1 : (moveFile fs2 src (ar ++ [lastComponent src])).files =
              fs.files.map (fun f => if f.1 == src then
                (ar ++ [lastComponent src], f.2) else f) := by
            rw [moveFile_to_fresh fs2 src (ar ++ [lastComponent src])
              (fun f hf => hnoapp f (hfiles2 ▸ hf)), hfiles2]
          have hstep2 : (moveTree (moveFile fs2 src
              (ar ++ [lastComponent src])) (srcRoot ++ [MILESTONES_DIR])
              (ar ++ [MILESTONES_DIR])).files =
              (moveFile fs2 src (ar ++ [lastComponent src])).files := by
            apply moveTree_id_of_none
            · intro y hy
              rw [hstep1] at hy
              obtain ⟨f, hf, hyf⟩ := List.mem_map.1 hy
              by_cases hs : (f.1 == src) = true
              · rw [if_pos hs] at hyf
                rw [← hyf]
                exact hamr_app
              · rw [if_neg hs] at hyf
                rw [← hyf]
                cases hc : leadsTo (ar ++ [MILESTONES_DIR]) f.1 with
                | false => rfl
                | true =>
                  have h2 := leadsTo_trans hamr_lead hc
                  rw [hnof f hf] at h2
                  exact Bool.noConfusion h2
            · intro y hy
              rw [hstep1] at hy
              obtain ⟨f, hf, hyf⟩ := List.mem_map.1 hy
              by_cases hs : (f.1 == src) = true
              · rw [if_pos hs] at hyf
                rw [← hyf]
                exact hms_app
              · rw [if_neg hs] at hyf
                rw [← hyf]
                exact hnoms f hf
          have hpost : (writeFile (moveTree (moveFile fs2 src
              (ar ++ [lastComponent src])) (srcRoot ++ [MILESTONES_DIR])
              (ar ++ [MILESTONES_DIR])) (ar ++ [lastComponent src])
              d2).files =
              fs.files.map (fun f => if f.1 == src then
                (ar ++ [lastComponent src], d2) else f) := by
            rw [writeFile_map _ _ _
              (archMark_some_hasFile _ _ _ _ _ hmark), hstep2, hstep1,
              map_if_compose fs.files src (ar ++ [lastComponent src]) d2
                hnoapp]
          exact archive_ok_state fs _ dir id src (ar ++ [lastComponent src])
            d2 hpost hresolve huniq happ_in happ_name hsrc_ne_app
        | none =>
          dsimp only []
          by_cases hfrms : inj.failRollbackMs = true
          · rw [if_pos hfrms]
            refine ⟨fun e he => ArchiveOutcome.noConfusion he,
              fun p hp => ?_,
              fun res hres2 => ArchiveOutcome.noConfusion hres2⟩
            rw [ArchiveOutcome.fatalOrphan.injEq] at hp
            subst hp
            refine ⟨⟨srcRoot ++ [MILESTONES_DIR], ?_⟩,
              fun s hs => List.not_mem_nil _ hs⟩
            simp
          · rw [if_neg hfrms]
            by_cases hfrbp : inj.failRollbackPlan = true
            · rw [if_pos hfrbp]
              refine ⟨fun e he => ArchiveOutcome.noConfusion he,
                fun p hp => ?_,
                fun res hres2 => ArchiveOutcome.noConfusion hres2⟩
              rw [ArchiveOutcome.fatalOrphan.injEq] at hp
              subst hp
              refine ⟨⟨src, by simp⟩, fun s hs => ?_⟩
              rw [List.mem_singleton, Prod.mk.injEq] at hs
              exact hamr_ne_app hs.1.symm
            · rw [if_neg hfrbp]
              refine ⟨fun e he => ⟨?_, rfl⟩,
                fun p hp => ArchiveOutcome.noConfusion hp,
                fun res hres2 => ArchiveOutcome.noConfusion hres2⟩
              show (moveFile (moveTree (moveTree (moveFile fs2 src
                (ar ++ [lastComponent src])) (srcRoot ++ [MILESTONES_DIR])
                (ar ++ [MILESTONES_DIR])) (ar ++ [MILESTONES_DIR])
                (srcRoot ++ [MILESTONES_DIR])) (ar ++ [lastComponent src])
                src).files = fs.files
              rw [legacy_roundtrip fs2 src (ar ++ [lastComponent src])
                (srcRoot ++ [MILESTONES_DIR]) (ar ++ [MILESTONES_DIR]) ar
                (fun f hf => hnof f (hfiles2 ▸ hf)) happ_lead hamr_lead
                hms_app hamr_app hms_amr (by simp; omega) hsrcms]
              exact hfiles2
    · rw [if_neg hhm]
      cases hmark : archMark (moveFile fs2 src (ar ++ [lastComponent src]))
          inj (ar ++ [lastComponent src]) day with
      | some d2 =>
        dsimp only []
        refine ⟨fun e he => ArchiveOutcome.noConfusion he,
          fun p hp => ArchiveOutcome.noConfusion hp,
          fun res hres2 honly huniq => ?_⟩
        rw [ArchiveOutcome.ok.injEq] at hres2
        subst hres2
        have hstep1 : (moveFile fs2 src (ar ++ [lastComponent src])).files =
            fs.files.map (fun f => if f.1 == src then
              (ar ++ [lastComponent src], f.2) else f) := by
          rw [moveFile_to_fresh fs2 src (ar ++ [lastComponent src])
            (fun f hf => hnoapp f (hfiles2 ▸ hf)), hfiles2]
        have hpost : (writeFile (moveFile fs2 src
            (ar ++ [lastComponent src])) (ar ++ [lastComponent src])
            d2).files =
            fs.files.map (fun f => if f.1 == src then
              (ar ++ [lastComponent src], d2) else f) := by
          rw [writeFile_map _ _ _
            (archMark_some_hasFile _ _ _ _ _ hmark), hstep1,
            map_if_compose fs.files src (ar ++ [lastComponent src]) d2
              hnoapp]
        exact archive_ok_state fs _ dir id src (ar ++ [lastComponent src])
          d2 hpost hresolve huniq happ_in happ_name hsrc_ne_app
      | none =>
        dsimp only []
        by_cases hfrbp : inj.failRollbackPlan = true
        · rw [if_pos hfrbp]
          refine ⟨fun e he => ArchiveOutcome.noConfusion he,
            fun p hp => ?_,
            fun res hres2 => ArchiveOutcome.noConfusion hres2⟩
          rw [ArchiveOutcome.fatalOrphan.injEq] at hp
          subst hp
          exact ⟨⟨src, List.mem_singleton.2 rfl⟩,
            fun s hs => List.not_mem_nil _ hs⟩
        · rw [if_neg hfrbp]
          refine ⟨fun e he => ⟨?_, rfl⟩,
            fun p hp => ArchiveOutcome.noConfusion hp,
            fun res hres2 => ArchiveOutcome.noConfusion hres2⟩
          show (moveFile (moveFile fs2 src (ar ++ [lastComponent src]))
            (ar ++ [lastComponent src]) src).files = fs.files
          rw [moveFile_roundtrip fs2 src (ar ++ [lastComponent src])
            (fun f hf => hnoapp f (hfiles2 ▸ hf)) hsrc_ne_app]
          exact hfiles2

theorem resolve_src_facts (fs : FS) (dir : PathParts) (id : String)
    (src : PathParts) (h : resolve_execplan_by_id fs dir id = .ok src) :
    (∃ f ∈ fs.files, f.1 = src) ∧ strictlyInside dir src = true ∧
    matchesEpGlob (lastComponent src) = true := by
  have hresolve := resolve_ok_facts fs dir id src h
  have hsrc_mem_res : src ∈ (iter_execplan_files fs dir).filter
      (fun p => extract_execplan_id_from_filename (lastComponent p) ==
        some id) := by
    rw [hresolve]
    exact List.mem_singleton.2 rfl
  have hsrc_iter := List.mem_of_mem_filter hsrc_mem_res
  unfold iter_execplan_files at hsrc_iter
  have hsrc_memA := (List.mem_filter.1 hsrc_iter).1
  have hP := (List.mem_filter.1 hsrc_iter).2
  simp only [Bool.and_eq_true] at hP
  obtain ⟨⟨hin, hg⟩, -⟩ := hP
  obtain ⟨f, hf, hfp⟩ := List.mem_map.1 hsrc_memA
  exact ⟨⟨f, hf, hfp⟩, hin, hg⟩

theorem dropLast_append_lastComponent : ∀ (l : PathParts), l ≠ [] →
    l.dropLast ++ [lastComponent l] = l
  | [], h => absurd rfl h
  | [_], _ => rfl
  | x :: y :: t, _ => by
    have ih := dropLast_append_lastComponent (y :: t) (by simp)
    have hlast : lastComponent (x :: y :: t) = lastComponent (y :: t) := by
      unfold lastComponent
      rw [List.getLast?_cons_cons]
    show (x :: (y :: t).dropLast) ++ [lastComponent (x :: y :: t)] = _
    rw [hlast, List.cons_append, ih]

/-- C1: for every `archive_execplan` call and every injected-failure
combination, (1) a call that raises an error after partial moves first
undoes every completed move in reverse order and restores the files of
the pre-call filesystem, (2) a rollback-step failure instead raises a
fatal outcome naming a moved path that was not undone, and (3) a
successful call — on a plan root whose only file is the plan file and
under a corpus carrying no other file for the ID — leaves exactly one
file on disk for that ID both before and after, at the archived path
and no longer at the source path.  (Directory entries are only
best-effort cleaned, as in the source.) -/
theorem archive_execplan_rollback (fs : FS) (dir : PathParts)
    (id day : String) (inj : ArchiveInject) :
    (∀ e, (archive_execplan fs dir id day inj).outcome = .err e →
      (archive_execplan fs dir id day inj).fs.files = fs.files ∧
      (archive_execplan fs dir id day inj).undoneMoves =
        ((archive_execplan fs dir id day inj).completedMoves).reverse.map
          Prod.swap) ∧
    (∀ p, (archive_execplan fs dir id day inj).outcome = .fatalOrphan p →
      (∃ s, (s, p) ∈ (archive_execplan fs dir id day inj).completedMoves) ∧
      ∀ s, (p, s) ∉ (archive_execplan fs dir id day inj).undoneMoves) ∧
    (∀ res, (archive_execplan fs dir id day inj).outcome = .ok res →
      (∀ f ∈ fs.files, leadsTo res.source_plan_root f.1 = true →
        f.1 = res.source_plan_path) →
      (∀ f ∈ fs.files, strictlyInside dir f.1 = true →
        f.1 ≠ res.source_plan_path →
        (matchesEpGlob (lastComponent f.1) &&
          (extract_execplan_id_from_filename (lastComponent f.1) ==
            some id)) = false) →
      count_execplan_files_for_id fs dir id = 1 ∧
      count_execplan_files_for_id (archive_execplan fs dir id day inj).fs
        dir id = 1 ∧
      hasFile (archive_execplan fs dir id day inj).fs
        res.archived_plan_path = true ∧
      hasFile (archive_execplan fs dir id day inj).fs
        res.source_plan_path = false) := by
  unfold archive_execplan
  cases hchk : archive_checks fs dir id day with
  | error e2 =>
    exact ⟨fun e he => ⟨rfl, rfl⟩,
      fun p hp => ArchiveOutcome.noConfusion hp,
      fun res hr => ArchiveOutcome.noConfusion hr⟩
  | ok v =>
    obtain ⟨src, srcRoot, legacy⟩ := v
    dsimp only []
    obtain ⟨hres, ⟨rel, hcls, hsrcRootEq⟩, hdstor, hlegEq⟩ :=
      archive_checks_ok_facts fs dir id day src srcRoot legacy hchk
    simp only [Bool.or_eq_false_iff, beq_eq_false_iff_ne] at hdstor
    obtain ⟨hdst1, hdst2⟩ := hdstor
    obtain ⟨hsrcfile, hstrict, hglob⟩ := resolve_src_facts fs dir id src hres
    have hresolve := resolve_ok_facts fs dir id src hres
    have hshape := archRoot_shape dir day id srcRoot
    have hsrcne : src ≠ [] := by
      intro hcon
      simp only [strictlyInside, Bool.and_eq_true,
        decide_eq_true_eq] at hstrict
      rw [hcon] at hstrict
      simp at hstrict
    by_cases hleg : legacy = true
    · subst hleg
      have hlegEq2 := hlegEq.symm
      simp only [Bool.and_eq_true, beq_iff_eq] at hlegEq2
      obtain ⟨hsr, hdl⟩ := hlegEq2
      have hsrc_eq : src = srcRoot ++ [lastComponent src] := by
        rw [← hdl]
        exact (dropLast_append_lastComponent src hsrcne).symm
      have hname : lastComponent src ≠ MILESTONES_DIR := by
        intro hcon
        rw [hcon] at hglob
        have h0 : matchesEpGlob MILESTONES_DIR = false := by decide
        rw [h0] at hglob
        exact Bool.noConfusion hglob
      rw [if_pos rfl]
      by_cases hmixed : (existsPath fs (srcRoot ++ [MILESTONES_DIR]) &&
          !(iter_unexpected_legacy_entries fs (srcRoot ++ [MILESTONES_DIR])
            id).isEmpty) = true
      · rw [if_pos hmixed]
        exact ⟨fun e he => ⟨rfl, rfl⟩,
          fun p hp => ArchiveOutcome.noConfusion hp,
          fun res hr => ArchiveOutcome.noConfusion hr⟩
      · rw [if_neg hmixed]
        by_cases hdest : existsPath (mkdirParents fs (archParent dir day))
            (archRoot dir day id srcRoot) = true
        · rw [if_pos hdest]
          exact ⟨fun e he => ⟨rfl, rfl⟩,
            fun p hp => ArchiveOutcome.noConfusion hp,
            fun res hr => ArchiveOutcome.noConfusion hr⟩
        · rw [if_neg hdest]
          have hnof : ∀ f ∈ fs.files,
              leadsTo (archRoot dir day id srcRoot) f.1 = false :=
            fun f hf => no_file_at_or_below (mkdirParents fs
              (archParent dir day)) (archRoot dir day id srcRoot)
              (eq_false_of_ne_true hdest) f hf
          exact legacy_moves_spec fs _ dir id day inj src srcRoot
            (archRoot dir day id srcRoot)
            (existsPath fs (srcRoot ++ [MILESTONES_DIR])) rfl hnof hdst2
            hshape.1 (by rw [hshape.2]; omega)
            (by rw [hshape.2, hsr]; simp only [List.length_append,
              List.length_cons, List.length_nil]; omega)
            hname hsrcfile hsrc_eq hresolve
    · have hlegf := eq_false_of_ne_true hleg
      subst hlegf
      rw [if_neg (by simp)]
      by_cases hdest : existsPath (mkdirParents fs (archParent dir day))
          (archRoot dir day id srcRoot) = true
      · rw [if_pos hdest]
        exact ⟨fun e he => ⟨rfl, rfl⟩,
          fun p hp => ArchiveOutcome.noConfusion hp,
          fun res hr => ArchiveOutcome.noConfusion hr⟩
      · rw [if_neg hdest]
        have hnof : ∀ f ∈ fs.files,
            leadsTo (archRoot dir day id srcRoot) f.1 = false :=
          fun f hf => no_file_at_or_below (mkdirParents fs
            (archParent dir day)) (archRoot dir day id srcRoot)
            (eq_false_of_ne_true hdest) f hf
        obtain ⟨⟨root0, b0⟩, hcls2, hx1⟩ := Option.map_eq_some'.1 hcls
        dsimp only [] at hx1
        subst hx1
        obtain ⟨hrel1, hrel2, hrel3⟩ :=
          classify_root_facts (src.drop dir.length) root0 b0 hcls2
        have hdl : leadsTo dir src = true := by
          simp only [strictlyInside, Bool.and_eq_true,
            decide_eq_true_eq] at hstrict
          exact hstrict.1
        have hsrc_split : dir ++ src.drop dir.length = src :=
          leadsTo_append_drop hdl
        have hsrcin : leadsTo srcRoot src = true := by
          rw [hsrcRootEq, ← hsrc_split]
          exact leadsTo_append_both dir hrel1
        have hlensrc : srcRoot.length < src.length := by
          rw [hsrcRootEq]
          simp only [List.length_append]
          have hdrop_len : (src.drop dir.length).length =
              src.length - dir.length := List.length_drop _ _
          rw [hdrop_len] at hrel2
          have := leadsTo_length hdl
          omega
        exact modern_moves_spec fs _ dir id day inj src srcRoot
          (archRoot dir day id srcRoot) rfl hnof hdst2
          (by rw [hshape.2, hsrcRootEq]
              simp only [List.length_append]
              omega)
          hsrcin hshape.1 (by omega)
          (by have := List.length_drop srcRoot.length src
              intro hcon
              rw [hcon] at this
              simp at this
              omega)
          hsrcfile hresolve

def c1fs : FS :=
  ⟨[(["ep", "active", "auth", "EP-20260207-001_auth.md"],
      Doc.fm [("id", "EP-20260207-001"), ("status", "active")] "body")],
   [["ep"], ["ep", "active"], ["ep", "active", "auth"]]⟩

def c1res : ArchiveResult :=
  ⟨"EP-20260207-001", ["ep", "active", "auth", "EP-20260207-001_auth.md"],
   ["ep", "archive", "2026", "02", "13", "EP-20260207-001_auth",
     "EP-20260207-001_auth.md"],
   ["ep", "active", "auth"],
   ["ep", "archive", "2026", "02", "13", "EP-20260207-001_auth"]⟩

theorem archive_execplan_rollback_witness :
    (archive_execplan c1fs ["ep"] "EP-20260207-001" "20260213"
      ⟨false, false, true, false, false⟩).outcome = .err .markFail ∧
    (archive_execplan c1fs ["ep"] "EP-20260207-001" "20260213"
      ⟨false, false, true, false, false⟩).fs.files = c1fs.files ∧
    (archive_execplan c1fs ["ep"] "EP-20260207-001" "20260213"
      ⟨false, false, true, false, false⟩).undoneMoves =
      ((archive_execplan c1fs ["ep"] "EP-20260207-001" "20260213"
        ⟨false, false, true, false, false⟩).completedMoves).reverse.map
        Prod.swap ∧
    (archive_execplan c1fs ["ep"] "EP-20260207-001" "20260213"
      noInject).outcome = .ok c1res ∧
    (count_execplan_files_for_id c1fs ["ep"] "EP-20260207-001" = 1 ∧
     count_execplan_files_for_id (archive_execplan c1fs ["ep"]
       "EP-20260207-001" "20260213" noInject).fs ["ep"]
       "EP-20260207-001" = 1 ∧
     hasFile (archive_execplan c1fs ["ep"] "EP-20260207-001" "20260213"
       noInject).fs c1res.archived_plan_path = true ∧
     hasFile (archive_execplan c1fs ["ep"] "EP-20260207-001" "20260213"
       noInject).fs c1res.source_plan_path = false) :=
  ⟨by decide,
   ((archive_execplan_rollback c1fs ["ep"] "EP-20260207-001" "20260213"
     ⟨false, false, true, false, false⟩).1 .markFail (by decide)).1,
   ((archive_execplan_rollback c1fs ["ep"] "EP-20260207-001" "20260213"
     ⟨false, false, true, false, false⟩).1 .markFail (by decide)).2,
   by decide,
   (archive_execplan_rollback c1fs ["ep"] "EP-20260207-001" "20260213"
     noInject).2.2 c1res (by decide) (by decide) (by decide)⟩
